import Mathlib

/-!
Verification of `ccx_messaging.publishers.rule_processing_publisher`
(`RuleProcessingPublisher`): a shallow embedding of the Python module in
Lean 4, together with theorems about its construction, publishing and
error-handling behaviour.

The embedding models Python values as the inductive type `PyVal`
(dictionaries are association lists with Python's insertion semantics),
Python exceptions as `PyExc`, and each method of the class as a pure
function.  The Kafka producer is modelled by its observable behaviour: the
list of `produce` calls it receives plus an optional exception it raises
on the (single) call `publish` makes.
-/

set_option maxRecDepth 20000

namespace CCXPub

/-- The left-brace character, written numerically. -/
def lbrace : Char := Char.ofNat 123

/-- The right-brace character, written numerically. -/
def rbrace : Char := Char.ofNat 125

/-- A Python value, as far as this module manipulates them: `None`,
booleans, integers, strings, lists and string-keyed dictionaries.  This
covers every value produced by `json.loads` (except floats, which no
claim touches and which the embedding's JSON parser rejects) and every
shape of `input_msg` the module's extraction code distinguishes. -/
inductive PyVal where
  | pynone : PyVal
  | pybool (b : Bool) : PyVal
  | pyint (n : Int) : PyVal
  | pystr (s : String) : PyVal
  | pylist (items : List PyVal) : PyVal
  | pydict (entries : List (String × PyVal)) : PyVal

/-- Python dictionaries with string keys, as ordered association lists. -/
abbrev PyDict := List (String × PyVal)

/-- A Python exception, identified by its type and (for most types) the
message carried by its argument. -/
inductive PyExc where
  | ccxMessagingError (msg : String)
  | kafkaException (msg : String)
  | keyError (key : String)
  | typeError (msg : String)
  | valueError (msg : String)
  | jsonDecodeError (msg : String)
  | unicodeEncodeError (msg : String)
  | bufferError (msg : String)
  | otherError (name msg : String)
  deriving DecidableEq, Repr

/-- `str(exc)`: how the exception renders inside an f-string.  A
`KeyError`'s `str` is the `repr` of its key. -/
def PyExc.str : PyExc → String
  | .ccxMessagingError m => m
  | .kafkaException m => m
  | .keyError k => "'" ++ k ++ "'"
  | .typeError m => m
  | .valueError m => m
  | .jsonDecodeError m => m
  | .unicodeEncodeError m => m
  | .bufferError m => m
  | .otherError _ m => m

/-- Whether the exception is (an instance of) `CCXMessagingError`, the
stage's typed error. -/
def PyExc.isCCX : PyExc → Bool
  | .ccxMessagingError _ => true
  | _ => false

/-- Whether the exception is a `KeyError` (matched by the first
`except KeyError` clause of the `try` block in `publish`). -/
def PyExc.isKeyError : PyExc → Bool
  | .keyError _ => true
  | _ => false

/-- Whether the exception is matched by the clause
`except (TypeError, UnicodeEncodeError, JSONDecodeError)` in `publish`. -/
def PyExc.isEncodingCaught : PyExc → Bool
  | .typeError _ => true
  | .unicodeEncodeError _ => true
  | .jsonDecodeError _ => true
  | _ => false

/-- Whether the exception is matched by the clause
`except (ValueError, KeyError, TypeError)` guarding the two identity
extractions in `publish`.  (`JSONDecodeError` is a `ValueError`
subclass in Python, hence also matched.) -/
def PyExc.isExtractionCaught : PyExc → Bool
  | .valueError _ => true
  | .keyError _ => true
  | .typeError _ => true
  | .jsonDecodeError _ => true
  | _ => false

/-- `d[k]` lookup in a Python dict: the value of the first (and in real
Python, only) entry with key `k`. -/
def dictLookup : PyDict → String → Option PyVal
  | [], _ => none
  | (k0, v0) :: rest, k => if k0 = k then some v0 else dictLookup rest k

/-- `d[k] = v` on a Python dict: replace the value in place when the key
is present, otherwise append the new entry (insertion order). -/
def dictInsert : PyDict → String → PyVal → PyDict
  | [], k, v => [(k, v)]
  | (k0, v0) :: rest, k, v =>
      if k0 = k then (k0, v) :: rest else (k0, v0) :: dictInsert rest k v

/-- `d.update(src)`: insert every entry of `src`, in order, into `d`. -/
def dictUpdate (d : PyDict) (src : PyDict) : PyDict :=
  src.foldl (fun acc p => dictInsert acc p.1 p.2) d

/-- `k in d` for a Python dict. -/
def dictContains (d : PyDict) (k : String) : Bool :=
  (dictLookup d k).isSome

/-- The `TypeError` message Python produces for `v["key"]` when `v` does
not support string subscripts.  (Messages follow CPython 3.11; only the
fact that a `TypeError` is raised matters to the module.) -/
def subscriptErrMsg : PyVal → String
  | .pynone => "'NoneType' object is not subscriptable"
  | .pybool _ => "'bool' object is not subscriptable"
  | .pyint _ => "'int' object is not subscriptable"
  | .pystr _ => "string indices must be integers, not 'str'"
  | .pylist _ => "list indices must be integers or slices, not str"
  | .pydict _ => ""

/-- `v[k]` for a string key `k`: dictionaries yield the entry or raise
`KeyError`; every other value raises `TypeError`. -/
def subscript : PyVal → String → Except PyExc PyVal
  | .pydict d, k =>
      match dictLookup d k with
      | some v => .ok v
      | none => .error (.keyError k)
  | v, _ => .error (.typeError (subscriptErrMsg v))

/-- `v.get(k)` for a dict `v`: the entry's value, or `None` when the key
is absent.  (`publish` only reaches its `.get` calls after a successful
subscript chain, which guarantees `v` is a dict; other shapes are
unreachable and mapped to `None`.) -/
def pyGet (v : PyVal) (k : String) : PyVal :=
  match v with
  | .pydict d => (dictLookup d k).getD .pynone
  | _ => .pynone

/-- Characters stripped by `int(str)`, restricted to ASCII whitespace. -/
def isPySpace (c : Char) : Bool :=
  c = ' ' ∨ c = '\t' ∨ c = '\n' ∨ c = '\r' ∨ c = '\x0b' ∨ c = '\x0c'

/-- Accumulate decimal digits, allowing a single underscore between two
digits as Python's `int()` does.  The first digit has been consumed. -/
def pyDigitsAux : List Char → Nat → Option Nat
  | [], acc => some acc
  | '_' :: c :: rest, acc =>
      if c.isDigit then pyDigitsAux rest (acc * 10 + (c.toNat - 48)) else none
  | c :: rest, acc =>
      if c.isDigit then pyDigitsAux rest (acc * 10 + (c.toNat - 48)) else none

/-- A non-empty run of decimal digits with optional underscores. -/
def pyDigits : List Char → Option Nat
  | c :: rest => if c.isDigit then pyDigitsAux rest (c.toNat - 48) else none
  | [] => none

/-- The numeric value of `int(s)` for a string `s`, when defined:
optional surrounding whitespace, an optional sign, then decimal digits
(ASCII; Python additionally accepts non-ASCII decimal digits, which no
claim involves). -/
def parsePyIntString (s : String) : Option Int :=
  let cs := ((s.data.dropWhile isPySpace).reverse.dropWhile isPySpace).reverse
  match cs with
  | '+' :: rest => (pyDigits rest).map (Int.ofNat)
  | '-' :: rest => (pyDigits rest).map (fun n => -(n : Int))
  | rest => (pyDigits rest).map (Int.ofNat)

/-- A naive `repr` for strings (exact for strings without quotes,
backslashes or control characters, which is all the module ever formats). -/
def pyRepr (s : String) : String := "'" ++ s ++ "'"

/-- The `TypeError` message of `int(v)` for a non-coercible value. -/
def intArgErrMsg (tyname : String) : String :=
  "int() argument must be a string, a bytes-like object or a real number, not '"
    ++ tyname ++ "'"

/-- `int(v)`: integers pass through, booleans coerce to 0/1, strings are
parsed (raising `ValueError` on failure), everything else raises
`TypeError`. -/
def pyToInt : PyVal → Except PyExc Int
  | .pyint n => .ok n
  | .pybool b => .ok (if b then 1 else 0)
  | .pystr s =>
      match parsePyIntString s with
      | some n => .ok n
      | none =>
          .error (.valueError ("invalid literal for int() with base 10: " ++ pyRepr s))
  | .pynone => .error (.typeError (intArgErrMsg "NoneType"))
  | .pylist _ => .error (.typeError (intArgErrMsg "list"))
  | .pydict _ => .error (.typeError (intArgErrMsg "dict"))

/-! ### UTF-8 encoding (`str.encode("utf-8")`) and decoding (`bytes.decode("utf-8")`) -/

/-- The UTF-8 byte sequence of a single character. -/
def utf8Char (c : Char) : List Nat :=
  let n := c.toNat
  if n < 0x80 then [n]
  else if n < 0x800 then [0xc0 + n / 0x40, 0x80 + n % 0x40]
  else if n < 0x10000 then
    [0xe0 + n / 0x1000, 0x80 + n / 0x40 % 0x40, 0x80 + n % 0x40]
  else
    [0xf0 + n / 0x40000, 0x80 + n / 0x1000 % 0x40, 0x80 + n / 0x40 % 0x40,
      0x80 + n % 0x40]

/-- `s.encode("utf-8")` as a byte list.  (Encoding can only fail on lone
surrogates, which Lean's `Char` excludes, so the model is total.) -/
def utf8Encode (s : String) : List Nat :=
  s.data.foldr (fun c acc => utf8Char c ++ acc) []

/-- Whether a byte is a UTF-8 continuation byte. -/
def isCont (b : Nat) : Bool := 0x80 ≤ b ∧ b < 0xc0

/-- Decode the continuation byte of a two-byte UTF-8 sequence with lead
byte `b` (already checked to be in `0xc2..0xdf`, so no overlong form is
possible). -/
def utf8DecCont1 (b : Nat) : List Nat → Option (Char × List Nat)
  | b1 :: tl =>
    if isCont b1 then some (Char.ofNat ((b - 0xc0) * 0x40 + (b1 - 0x80)), tl)
    else none
  | _ => none

/-- Decode the continuation bytes of a three-byte UTF-8 sequence,
rejecting overlong forms and surrogates. -/
def utf8DecCont2 (b : Nat) : List Nat → Option (Char × List Nat)
  | b1 :: b2 :: tl =>
    if isCont b1 ∧ isCont b2 then
      let v := (b - 0xe0) * 0x1000 + (b1 - 0x80) * 0x40 + (b2 - 0x80)
      if 0x800 ≤ v ∧ ¬(0xd800 ≤ v ∧ v ≤ 0xdfff) then some (Char.ofNat v, tl)
      else none
    else none
  | _ => none

/-- Decode the continuation bytes of a four-byte UTF-8 sequence,
rejecting overlong forms and values above U+10FFFF. -/
def utf8DecCont3 (b : Nat) : List Nat → Option (Char × List Nat)
  | b1 :: b2 :: b3 :: tl =>
    if isCont b1 ∧ isCont b2 ∧ isCont b3 then
      let v := (b - 0xf0) * 0x40000 + (b1 - 0x80) * 0x1000 +
        (b2 - 0x80) * 0x40 + (b3 - 0x80)
      if 0x10000 ≤ v ∧ v < 0x110000 then some (Char.ofNat v, tl)
      else none
    else none
  | _ => none

/-- Decode one character from the head of a byte list, strictly:
invalid lead bytes, truncated sequences, overlong forms, surrogates and
values above U+10FFFF are rejected, as `bytes.decode("utf-8")` does. -/
def utf8DecodeOne : List Nat → Option (Char × List Nat)
  | [] => none
  | b :: tl =>
    if b < 0x80 then some (Char.ofNat b, tl)
    else if b < 0xc2 then none
    else if b < 0xe0 then utf8DecCont1 b tl
    else if b < 0xf0 then utf8DecCont2 b tl
    else if b < 0xf5 then utf8DecCont3 b tl
    else none

/-- Decode a whole byte list; the fuel (any bound on the character
count, e.g. the byte count) makes the recursion structural. -/
def utf8DecodeAux (fuel : Nat) (bs : List Nat) : Option (List Char) :=
  match fuel with
  | 0 => match bs with | [] => some [] | _ => none
  | fuel + 1 =>
    match bs with
    | [] => some []
    | b :: tl =>
      match utf8DecodeOne (b :: tl) with
      | some (c, rest) => (utf8DecodeAux fuel rest).map (fun cs => c :: cs)
      | none => none

/-- `bytes.decode("utf-8")`, when it succeeds. -/
def utf8Decode (bs : List Nat) : Option String :=
  (utf8DecodeAux bs.length bs).map String.mk

/-! ### `json.dumps` (default options: `ensure_ascii=True`,
separators `", "` and `": "`, insertion-ordered keys) -/

/-- Lowercase hexadecimal digit. -/
def hexDigitChar (n : Nat) : Char :=
  if n < 10 then Char.ofNat (48 + n) else Char.ofNat (87 + n)

/-- Four lowercase hex digits, as in `"\u%04x"`. -/
def hex4 (n : Nat) : List Char :=
  [hexDigitChar (n / 4096 % 16), hexDigitChar (n / 256 % 16),
    hexDigitChar (n / 16 % 16), hexDigitChar (n % 16)]

/-- How `json.dumps` renders one character of a string: the two-character
escapes of `ESCAPE_DCT`, printable ASCII verbatim, and `\uXXXX` (with a
surrogate pair above U+FFFF) for everything else (`ensure_ascii=True`). -/
def escapeChar (c : Char) : List Char :=
  if c = '"' then ['\\', '"']
  else if c = '\\' then ['\\', '\\']
  else if c = '\x08' then ['\\', 'b']
  else if c = '\x0c' then ['\\', 'f']
  else if c = '\n' then ['\\', 'n']
  else if c = '\r' then ['\\', 'r']
  else if c = '\t' then ['\\', 't']
  else if 0x20 ≤ c.toNat ∧ c.toNat ≤ 0x7e then [c]
  else if c.toNat < 0x10000 then '\\' :: 'u' :: hex4 c.toNat
  else
    let v := c.toNat - 0x10000
    ('\\' :: 'u' :: hex4 (0xd800 + v / 0x400)) ++
      ('\\' :: 'u' :: hex4 (0xdc00 + v % 0x400))

/-- The escaped body of a JSON string literal. -/
def escapeStr (s : String) : List Char :=
  s.data.foldr (fun c acc => escapeChar c ++ acc) []

/-- Decimal digits of a natural number, most significant first; the fuel
argument (any value above the digit count) makes the recursion
structural. -/
def natDigitsAux (fuel n : Nat) : List Char :=
  match fuel with
  | 0 => []
  | fuel + 1 =>
    if n < 10 then [Char.ofNat (48 + n)]
    else natDigitsAux fuel (n / 10) ++ [Char.ofNat (48 + n % 10)]

/-- Decimal digits of a natural number, most significant first. -/
def natDigits (n : Nat) : List Char := natDigitsAux (n + 1) n

/-- The decimal rendering of a Python `int`, as `repr`/`json.dumps`
produce it. -/
def intChars (n : Int) : List Char :=
  if n < 0 then '-' :: natDigits (-n).toNat else natDigits n.toNat

mutual

/-- The character sequence `json.dumps(v)` produces, with the default
separators and key order. -/
def dumpVal : PyVal → List Char
  | .pynone => ['n', 'u', 'l', 'l']
  | .pybool true => ['t', 'r', 'u', 'e']
  | .pybool false => ['f', 'a', 'l', 's', 'e']
  | .pyint n => intChars n
  | .pystr s => '"' :: (escapeStr s ++ ['"'])
  | .pylist items => '[' :: (dumpItems items ++ [']'])
  | .pydict entries => lbrace :: (dumpEntries entries ++ [rbrace])
termination_by structural v => v

/-- Array items joined by `", "`. -/
def dumpItems : List PyVal → List Char
  | [] => []
  | [v] => dumpVal v
  | v :: rest => dumpVal v ++ ',' :: ' ' :: dumpItems rest
termination_by structural l => l

/-- Object members `"key": value` joined by `", "`. -/
def dumpEntries : List (String × PyVal) → List Char
  | [] => []
  | [(k, v)] => '"' :: (escapeStr k ++ '"' :: ':' :: ' ' :: dumpVal v)
  | (k, v) :: rest =>
      '"' :: (escapeStr k ++ '"' :: ':' :: ' ' :: dumpVal v) ++
        ',' :: ' ' :: dumpEntries rest
termination_by structural l => l

end

/-- `json.dumps(v)` with CPython's default options. -/
def json_dumps (v : PyVal) : String := String.mk (dumpVal v)

/-! ### `json.loads` (CPython's strict decoder, restricted to JSON
without floating-point literals — no claim involves floats — and
without lone-surrogate `\uXXXX` escapes, which Lean's `Char` cannot
represent) -/

/-- JSON whitespace (`' '`, `'\t'`, `'\n'`, `'\r'`). -/
def jsonWsChar (c : Char) : Bool :=
  c = ' ' ∨ c = '\t' ∨ c = '\n' ∨ c = '\r'

/-- Skip JSON whitespace. -/
def skipWs (cs : List Char) : List Char := cs.dropWhile jsonWsChar

/-- Value of a hexadecimal digit (either case). -/
def hexVal (c : Char) : Option Nat :=
  if '0' ≤ c ∧ c ≤ '9' then some (c.toNat - 48)
  else if 'a' ≤ c ∧ c ≤ 'f' then some (c.toNat - 87)
  else if 'A' ≤ c ∧ c ≤ 'F' then some (c.toNat - 55)
  else none

/-- Parse the four hex digits of a `\uXXXX` escape. -/
def parse4Hex : List Char → Option (Nat × List Char)
  | h1 :: h2 :: h3 :: h4 :: rest =>
    match hexVal h1, hexVal h2, hexVal h3, hexVal h4 with
    | some a, some b, some c, some d =>
      some (a * 4096 + b * 256 + c * 16 + d, rest)
    | _, _, _, _ => none
  | _ => none

/-- After a `\uXXXX` escape holding a high surrogate `v`, require a
following `\uXXXX` low-surrogate escape and combine the pair into one
character. -/
def parseLowSurrogate (v : Nat) : List Char → Option (Char × List Char)
  | '\\' :: 'u' :: rest =>
    match parse4Hex rest with
    | some (w, rest2) =>
      if 0xdc00 ≤ w ∧ w ≤ 0xdfff then
        some (Char.ofNat (0x10000 + (v - 0xd800) * 0x400 + (w - 0xdc00)), rest2)
      else none
    | none => none
  | _ => none

/-- Parse one escape sequence (the backslash already consumed): the
two-character escapes, and `\uXXXX` with surrogate-pair combination.
(CPython additionally accepts lone surrogates, which Lean's `Char`
cannot represent; the model rejects them, and `json.dumps` never emits
them for well-formed strings.) -/
def parseEscape : List Char → Option (Char × List Char)
  | e :: rest =>
    if e = '"' then some ('"', rest)
    else if e = '\\' then some ('\\', rest)
    else if e = '/' then some ('/', rest)
    else if e = 'b' then some ('\x08', rest)
    else if e = 'f' then some ('\x0c', rest)
    else if e = 'n' then some ('\n', rest)
    else if e = 'r' then some ('\r', rest)
    else if e = 't' then some ('\t', rest)
    else if e = 'u' then
      match parse4Hex rest with
      | some (v, rest2) =>
        if v < 0xd800 ∨ 0xdfff < v then some (Char.ofNat v, rest2)
        else if v ≤ 0xdbff then parseLowSurrogate v rest2
        else none
      | none => none
    else none
  | [] => none

/-- Scan the body of a JSON string literal (the opening quote already
consumed), handling escapes and rejecting unescaped control characters
(strict mode).  The fuel (any bound on the number of source characters,
e.g. the input length) makes the recursion structural. -/
def parseJStrAux (fuel : Nat) (cs : List Char) (acc : List Char) :
    Option (String × List Char) :=
  match fuel with
  | 0 => none
  | fuel + 1 =>
    match cs with
    | [] => none
    | c :: rest =>
      if c = '"' then some (String.mk acc.reverse, rest)
      else if c = '\\' then
        match parseEscape rest with
        | some (d, rest2) => parseJStrAux fuel rest2 (d :: acc)
        | none => none
      else if c.toNat < 0x20 then none
      else parseJStrAux fuel rest (c :: acc)

/-- Accumulate a maximal run of decimal digits. -/
def scanDigits : List Char → Nat → Nat × List Char
  | [], acc => (acc, [])
  | c :: rest, acc =>
    if c.isDigit then scanDigits rest (acc * 10 + (c.toNat - 48))
    else (acc, c :: rest)

/-- Whether the remaining input begins a fraction or exponent part
(which would make the number a float, outside this model). -/
def startsFloatPart : List Char → Bool
  | c :: _ => c = '.' ∨ c = 'e' ∨ c = 'E'
  | [] => false

/-- Scan a JSON integer literal (`0` or a nonzero digit followed by
digits), per the decoder's `NUMBER_RE`; floats are rejected. -/
def parseJNat : List Char → Option (Nat × List Char)
  | [] => none
  | c :: rest =>
    if c = '0' then if startsFloatPart rest then none else some (0, rest)
    else if c.isDigit then
      match scanDigits rest (c.toNat - 48) with
      | (n, rest2) => if startsFloatPart rest2 then none else some (n, rest2)
    else none

mutual

/-- Parse one JSON value at the head of the input (leading whitespace
already skipped), returning it with the unconsumed remainder. -/
def parseVal (fuel : Nat) (cs : List Char) : Option (PyVal × List Char) :=
  match fuel with
  | 0 => none
  | fuel + 1 =>
    match cs with
    | [] => none
    | c :: rest =>
      if c = lbrace then parseObj fuel (skipWs rest)
      else if c = '[' then parseArr fuel (skipWs rest)
      else if c = '"' then
        (parseJStrAux rest.length rest []).map (fun p => (.pystr p.1, p.2))
      else if c = 't' then
        match rest with
        | 'r' :: 'u' :: 'e' :: rest2 => some (.pybool true, rest2)
        | _ => none
      else if c = 'f' then
        match rest with
        | 'a' :: 'l' :: 's' :: 'e' :: rest2 => some (.pybool false, rest2)
        | _ => none
      else if c = 'n' then
        match rest with
        | 'u' :: 'l' :: 'l' :: rest2 => some (.pynone, rest2)
        | _ => none
      else if c = '-' then
        (parseJNat rest).map (fun p => (.pyint (-(p.1 : Int)), p.2))
      else (parseJNat (c :: rest)).map (fun p => (.pyint (p.1 : Int), p.2))
termination_by structural fuel

/-- Parse an object body after `{` (whitespace already skipped). -/
def parseObj (fuel : Nat) (cs : List Char) : Option (PyVal × List Char) :=
  match fuel with
  | 0 => none
  | fuel + 1 =>
    match cs with
    | [] => none
    | c :: rest =>
      if c = rbrace then some (.pydict [], rest) else parseMembers fuel cs []
termination_by structural fuel

/-- Parse `"key": value` members, inserting each into the accumulated
dict with Python's insertion semantics (last value wins, first
position kept). -/
def parseMembers (fuel : Nat) (cs : List Char) (acc : List (String × PyVal)) :
    Option (PyVal × List Char) :=
  match fuel with
  | 0 => none
  | fuel + 1 =>
    match cs with
    | c0 :: rest =>
      if c0 = '"' then
        match parseJStrAux rest.length rest [] with
        | some (k, rest2) =>
          match skipWs rest2 with
          | c1 :: rest3 =>
            if c1 = ':' then
              match parseVal fuel (skipWs rest3) with
              | some (v, rest4) =>
                match skipWs rest4 with
                | c2 :: rest5 =>
                  if c2 = ',' then parseMembers fuel (skipWs rest5) (dictInsert acc k v)
                  else if c2 = rbrace then some (.pydict (dictInsert acc k v), rest5)
                  else none
                | [] => none
              | none => none
            else none
          | [] => none
        | none => none
      else none
    | [] => none
termination_by structural fuel

/-- Parse an array body after `[` (whitespace already skipped). -/
def parseArr (fuel : Nat) (cs : List Char) : Option (PyVal × List Char) :=
  match fuel with
  | 0 => none
  | fuel + 1 =>
    match cs with
    | [] => none
    | c :: rest => if c = ']' then some (.pylist [], rest) else parseItems fuel cs []
termination_by structural fuel

/-- Parse comma-separated array items. -/
def parseItems (fuel : Nat) (cs : List Char) (acc : List PyVal) :
    Option (PyVal × List Char) :=
  match fuel with
  | 0 => none
  | fuel + 1 =>
    match parseVal fuel cs with
    | some (v, rest) =>
      match skipWs rest with
      | c :: rest2 =>
        if c = ',' then parseItems fuel (skipWs rest2) (acc ++ [v])
        else if c = ']' then some (.pylist (acc ++ [v]), rest2)
        else none
      | [] => none
    | none => none
termination_by structural fuel

end

/-- `json.loads(s)`: skip leading whitespace, parse one value, require
only whitespace afterwards.  (Python's `JSONDecodeError` messages also
carry positions; the model keeps just the leading text.) -/
def json_loads (s : String) : Except PyExc PyVal :=
  match parseVal (2 * s.length + 4) (skipWs s.data) with
  | some (v, rest) =>
    if (skipWs rest).isEmpty then .ok v
    else .error (.jsonDecodeError "Extra data")
  | none => .error (.jsonDecodeError "Expecting value")

/-! ### The `RuleProcessingPublisher` class -/

/-- The state a successfully constructed `RuleProcessingPublisher`
holds: the output topic, the merged producer configuration (handed to
`Producer(kwargs)`), and the fixed `outdata_schema_version`.  Producing
a `Stage` corresponds to `Producer(kwargs)` having been called, so a
construction that fails creates no producer handle. -/
structure Stage where
  topic : String
  producerConfig : PyDict
  outdata_schema_version : Int

/-- The `kwargs` dict after `__init__`'s merge step: a truthy
`kafka_broker_config` (a present, non-empty dict) is `update`d into
`kwargs`; `None` or an empty dict leaves `kwargs` unchanged. -/
def mergedKwargs (kbc : Option PyDict) (kwargs : PyDict) : PyDict :=
  match kbc with
  | some c => if c.isEmpty then kwargs else dictUpdate kwargs c
  | none => kwargs

/-- `RuleProcessingPublisher.__init__(outgoing_topic, kafka_broker_config,
**kwargs)`: reject a non-`str` topic with `CCXMessagingError`, merge the
broker config, reject a merged config without `"bootstrap.servers"` with
`KafkaException`, and otherwise create the producer. -/
def rule_init (outgoing_topic : PyVal) (kbc : Option PyDict) (kwargs : PyDict) :
    Except PyExc Stage :=
  match outgoing_topic with
  | .pystr t =>
    let merged := mergedKwargs kbc kwargs
    if dictContains merged "bootstrap.servers" then
      .ok { topic := t, producerConfig := merged, outdata_schema_version := 2 }
    else .error (.kafkaException "Broker not configured")
  | _ => .error (.ccxMessagingError "outgoing_topic should be a str")

/-- One `producer.produce(topic, message_bytes)` call. -/
abbrev ProduceCall := String × List Nat

/-- The observable result of one `publish` call: the `produce` calls
made on the producer, and the exception `publish` raised, if any. -/
structure PublishResult where
  produceCalls : List ProduceCall
  outcome : Option PyExc

/-- `int(input_msg["identity"]["identity"]["internal"]["org_id"])`.
Every failure is a `KeyError`, `TypeError` or `ValueError`, exactly the
types the surrounding `except` clause catches. -/
def extractOrgId (im : PyVal) : Except PyExc Int := do
  let a ← subscript im "identity"
  let b ← subscript a "identity"
  let c ← subscript b "internal"
  let d ← subscript c "org_id"
  pyToInt d

/-- `int(input_msg["identity"]["identity"]["account_number"])`. -/
def extractAccountNumber (im : PyVal) : Except PyExc Int := do
  let a ← subscript im "identity"
  let b ← subscript a "identity"
  let d ← subscript b "account_number"
  pyToInt d

/-- The `output_msg` dict literal of `publish`, keys in source order. -/
def mkEnvelope (ver org acct : Int) (cn rep ts rid : PyVal) : PyVal :=
  .pydict [("OrgID", .pyint org), ("AccountNumber", .pyint acct),
    ("ClusterName", cn), ("Report", rep), ("LastChecked", ts),
    ("Version", .pyint ver), ("RequestId", rid)]

/-- The `try` block of `publish`, in source order: extract `timestamp`,
build the envelope (whose dict literal evaluates
`input_msg["cluster_name"]`, then `json.loads(response)`, then
`input_msg.get("request_id")`), serialize with a trailing newline,
UTF-8-encode and call `producer.produce`.  `pe` is the exception the
producer raises on that call, if any; the pair returned is the calls
made and the exception escaping the block. -/
def tryBlock (st : Stage) (pe : Option PyExc) (im : PyVal) (resp : String)
    (org acct : Int) : List ProduceCall × Option PyExc :=
  match subscript im "timestamp" with
  | .error e => ([], some e)
  | .ok ts =>
    match subscript im "cluster_name" with
    | .error e => ([], some e)
    | .ok cn =>
      match json_loads resp with
      | .error e => ([], some e)
      | .ok rep =>
        let env := mkEnvelope st.outdata_schema_version org acct cn rep ts
          (pyGet im "request_id")
        let message := json_dumps env ++ "\n"
        ([(st.topic, utf8Encode message)], pe)

/-- `RuleProcessingPublisher.publish(input_msg, response)`: the two
guarded identity extractions, then the `try` block with its two `except`
clauses (`KeyError` → "Missing expected keys…"; `TypeError`,
`UnicodeEncodeError`, `JSONDecodeError` → "Error encoding…"); any other
exception — in particular one the producer raises on `produce`, such as
`BufferError` — propagates unconverted. -/
def publish (st : Stage) (pe : Option PyExc) (im : PyVal) (resp : String) :
    PublishResult :=
  match extractOrgId im with
  | .error e =>
    { produceCalls := [],
      outcome := some (.ccxMessagingError ("Error extracting the OrgID: " ++ e.str)) }
  | .ok org =>
    match extractAccountNumber im with
    | .error e =>
      { produceCalls := [],
        outcome := some
          (.ccxMessagingError ("Error extracting the Account number: " ++ e.str)) }
    | .ok acct =>
      match tryBlock st pe im resp org acct with
      | (calls, none) => { produceCalls := calls, outcome := none }
      | (calls, some e) =>
        if e.isKeyError then
          { produceCalls := calls,
            outcome := some
              (.ccxMessagingError "Missing expected keys in the input message") }
        else if e.isEncodingCaught then
          { produceCalls := calls,
            outcome := some
              (.ccxMessagingError ("Error encoding the response to publish: " ++ resp)) }
        else { produceCalls := calls, outcome := some e }

/-- Modelled from the spec: `CCXMessagingError.format` lives in
`ccx_messaging/error.py`, which is not under `src/`.  Per the spec,
`error` "emits a structured error log including … the triggering
exception" and "any failure while formatting/logging is swallowed", so
the formatter is modelled as a total function of the rendered exception
and the originating message. -/
def ccxFormat (excStr : String) (im : PyVal) : String :=
  "Status: Error; Topic: " ++ json_dumps (pyGet im "topic") ++ "; Cause: " ++ excStr

/-- The normalization step of `error`: wrap `ex` in `CCXMessagingError`
unless it already is one (`str(CCXMessagingError(ex)) == str(ex)`). -/
def normalizeExc (ex : PyExc) : PyExc :=
  if ex.isCCX then ex else .ccxMessagingError ex.str

/-- `RuleProcessingPublisher.error(input_msg, ex)`: the no-op `super`
call, normalization of `ex` into `CCXMessagingError` when it is not one
already, then `LOG.error(ex.format(input_msg))`.  The result is the
logged line; an `Except` result records whether the handler itself
raised. -/
def errorHandler (im : PyVal) (ex : PyExc) : Except PyExc String :=
  .ok (ccxFormat (normalizeExc ex).str im)

/-! ### Concrete values used by the witnesses: the spec's worked example -/

/-- The spec's example `input_msg`. -/
def exampleMsg : PyVal := .pydict [
  ("identity", .pydict [("identity", .pydict [
    ("internal", .pydict [("org_id", .pystr "42")]),
    ("account_number", .pystr "7")])]),
  ("cluster_name", .pystr "c1"),
  ("timestamp", .pystr "2024-01-01T00:00:00Z"),
  ("request_id", .pystr "r1")]

/-- The spec's example `response`. -/
def exampleResp : String := "\x7b\"a\":1\x7d"

/-- A stage as `__init__` builds it for topic `"t"`. -/
def exampleStage : Stage :=
  { topic := "t", producerConfig := [("bootstrap.servers", .pystr "kafka:9092")],
    outdata_schema_version := 2 }

/-- The expected wire text for the example: the spec's example envelope
serialized with `json.dumps`'s default separators, newline-terminated. -/
def exampleWire : String :=
  "\x7b\"OrgID\": 42, \"AccountNumber\": 7, \"ClusterName\": \"c1\", " ++
  "\"Report\": \x7b\"a\": 1\x7d, \"LastChecked\": \"2024-01-01T00:00:00Z\", " ++
  "\"Version\": 2, \"RequestId\": \"r1\"\x7d\n"

/-- An `input_msg` with a valid OrgID but a non-numeric account number. -/
def acctBadMsg : PyVal := .pydict [
  ("identity", .pydict [("identity", .pydict [
    ("internal", .pydict [("org_id", .pystr "42")]),
    ("account_number", .pystr "abc")])])]

/-- An `input_msg` with valid identity fields and `cluster_name` but no
`timestamp`. -/
def tsMissingMsg : PyVal := .pydict [
  ("identity", .pydict [("identity", .pydict [
    ("internal", .pydict [("org_id", .pystr "42")]),
    ("account_number", .pystr "7")])]),
  ("cluster_name", .pystr "c1")]

/-- An `input_msg` with valid identity fields and `timestamp` but no
`cluster_name`. -/
def cnMissingMsg : PyVal := .pydict [
  ("identity", .pydict [("identity", .pydict [
    ("internal", .pydict [("org_id", .pystr "42")]),
    ("account_number", .pystr "7")])]),
  ("timestamp", .pystr "2024-01-01T00:00:00Z")]

/-- Whether a value is a Python `dict`. -/
def PyVal.isDict : PyVal → Bool
  | .pydict _ => true
  | _ => false

/-- Whether a value is a Python `str` (`type(v) is str`). -/
def PyVal.isStr : PyVal → Bool
  | .pystr _ => true
  | _ => false

/-- Whether a dict's keys are pairwise distinct (true of every real
Python dict; the association-list model can express more). -/
def keysNodup : PyDict → Bool
  | [] => true
  | (k, _) :: rest => !(dictContains rest k) && keysNodup rest

/-- Whether a publish result failed with the code's encoding-error
classification for the given response. -/
def isEncodingOutcome (r : PublishResult) (resp : String) : Bool :=
  match r.outcome with
  | some (.ccxMessagingError m) => m == "Error encoding the response to publish: " ++ resp
  | _ => false

mutual

/-- Well-formedness of a value as a real Python value: every dictionary
in it has pairwise-distinct keys.  Association lists can express
duplicate keys, which no Python dict (and no `json.loads` result) can. -/
def wfVal : PyVal → Bool
  | .pynone => true
  | .pybool _ => true
  | .pyint _ => true
  | .pystr _ => true
  | .pylist items => wfItems items
  | .pydict entries => keysNodup entries && wfEntries entries
termination_by structural v => v

/-- Well-formedness of a list of values. -/
def wfItems : List PyVal → Bool
  | [] => true
  | v :: rest => wfVal v && wfItems rest
termination_by structural l => l

/-- Well-formedness of a dict's entries. -/
def wfEntries : List (String × PyVal) → Bool
  | [] => true
  | (_, v) :: rest => wfVal v && wfEntries rest
termination_by structural l => l

end

mutual

/-- Fuel bound for parsing the printed form of a value: an upper bound
on the recursion depth `parseVal` needs on `dumpVal v`. -/
def jsize : PyVal → Nat
  | .pylist items => 2 + jsizeItems items
  | .pydict entries => 2 + jsizeEntries entries
  | _ => 1
termination_by structural v => v

/-- Fuel bound for a list of array items. -/
def jsizeItems : List PyVal → Nat
  | [] => 0
  | v :: rest => 1 + jsize v + jsizeItems rest
termination_by structural l => l

/-- Fuel bound for a dict's entries. -/
def jsizeEntries : List (String × PyVal) → Nat
  | [] => 0
  | (_, v) :: rest => 1 + jsize v + jsizeEntries rest
termination_by structural l => l

end

/-- Whether the remaining input after a parsed value is a legal
continuation in the printed form: end of input, a separator, a closing
bracket, or whitespace. -/
def delimOk : List Char → Bool
  | [] => true
  | c :: _ => c = ',' ∨ c = rbrace ∨ c = ']' ∨ jsonWsChar c

/-- Whether the remaining input cannot extend a number literal (no
digit, no fraction, no exponent). -/
def numEndOk : List Char → Bool
  | [] => true
  | c :: _ => !c.isDigit && !(c = '.') && !(c = 'e') && !(c = 'E')

/-! ### Dictionary lemmas (for the configuration-merge claims) -/

theorem dictLookup_dictInsert_self (d : PyDict) (k : String) (v : PyVal) :
    dictLookup (dictInsert d k v) k = some v := by
  induction d with
  | nil => simp [dictInsert, dictLookup]
  | cons p rest ih =>
    obtain ⟨k0, v0⟩ := p
    by_cases h : k0 = k
    · subst h; simp [dictInsert, dictLookup]
    · simp [dictInsert, dictLookup, h, ih]

theorem dictLookup_dictInsert_ne (d : PyDict) (k k' : String) (v : PyVal)
    (h : k' ≠ k) : dictLookup (dictInsert d k' v) k = dictLookup d k := by
  induction d with
  | nil => simp [dictInsert, dictLookup, h]
  | cons p rest ih =>
    obtain ⟨k0, v0⟩ := p
    by_cases h0 : k0 = k'
    · subst h0; simp [dictInsert, dictLookup, h]
    · simp [dictInsert, dictLookup, h0, ih]

theorem dictUpdate_cons (d : PyDict) (k : String) (v : PyVal) (rest : PyDict) :
    dictUpdate d ((k, v) :: rest) = dictUpdate (dictInsert d k v) rest := rfl

theorem dictLookup_dictUpdate_notmem (src d : PyDict) (k : String)
    (h : dictContains src k = false) :
    dictLookup (dictUpdate d src) k = dictLookup d k := by
  induction src generalizing d with
  | nil => rfl
  | cons p rest ih =>
    obtain ⟨k0, v0⟩ := p
    by_cases hk : k0 = k
    · subst hk; simp [dictContains, dictLookup] at h
    · have hrest : dictContains rest k = false := by
        simpa [dictContains, dictLookup, hk] using h
      rw [dictUpdate_cons, ih _ hrest, dictLookup_dictInsert_ne _ _ _ _ hk]

theorem dictLookup_dictUpdate_mem (src d : PyDict) (k : String) (v : PyVal)
    (hnd : keysNodup src = true) (h : dictLookup src k = some v) :
    dictLookup (dictUpdate d src) k = some v := by
  induction src generalizing d with
  | nil => simp [dictLookup] at h
  | cons p rest ih =>
    obtain ⟨k0, v0⟩ := p
    have hnd1 : dictContains rest k0 = false ∧ keysNodup rest = true := by
      simpa [keysNodup] using hnd
    by_cases hk : k0 = k
    · subst hk
      have hv : v0 = v := by simpa [dictLookup] using h
      subst hv
      rw [dictUpdate_cons, dictLookup_dictUpdate_notmem rest _ _ hnd1.1,
        dictLookup_dictInsert_self]
    · have h' : dictLookup rest k = some v := by simpa [dictLookup, hk] using h
      rw [dictUpdate_cons]
      exact ih _ hnd1.2 h'

/-! ### Shape lemmas about the error paths of `publish` -/

theorem subscript_error_caught (v : PyVal) (k : String) (e : PyExc)
    (h : subscript v k = .error e) :
    e.isKeyError = true ∨ e.isEncodingCaught = true := by
  cases v with
  | pydict d =>
    cases hd : dictLookup d k with
    | none => simp [subscript, hd] at h; subst h; left; rfl
    | some w => simp [subscript, hd] at h
  | pynone => simp [subscript] at h; subst h; right; rfl
  | pybool b => simp [subscript] at h; subst h; right; rfl
  | pyint n => simp [subscript] at h; subst h; right; rfl
  | pystr s => simp [subscript] at h; subst h; right; rfl
  | pylist l => simp [subscript] at h; subst h; right; rfl

theorem json_loads_error_shape (s : String) (e : PyExc)
    (h : json_loads s = .error e) : e.isEncodingCaught = true := by
  unfold json_loads at h
  cases hp : parseVal (2 * s.length + 4) (skipWs s.data) with
  | none => rw [hp] at h; simp at h; subst h; rfl
  | some p =>
    rw [hp] at h
    by_cases he : (skipWs p.2).isEmpty = true
    · simp [he] at h
    · simp [he] at h; subst h; rfl

theorem tryBlock_exc (st : Stage) (pe : Option PyExc) (im : PyVal) (resp : String)
    (org acct : Int) (e : PyExc)
    (h : (tryBlock st pe im resp org acct).2 = some e) :
    e.isKeyError = true ∨ e.isEncodingCaught = true ∨ pe = some e := by
  unfold tryBlock at h
  cases hts : subscript im "timestamp" with
  | error e1 =>
    rw [hts] at h; simp at h; subst h
    rcases subscript_error_caught _ _ _ hts with h1 | h1
    · exact Or.inl h1
    · exact Or.inr (Or.inl h1)
  | ok ts =>
    rw [hts] at h
    cases hcn : subscript im "cluster_name" with
    | error e1 =>
      rw [hcn] at h; simp at h; subst h
      rcases subscript_error_caught _ _ _ hcn with h1 | h1
      · exact Or.inl h1
      · exact Or.inr (Or.inl h1)
    | ok cn =>
      rw [hcn] at h
      cases hrep : json_loads resp with
      | error e1 =>
        rw [hrep] at h; simp at h; subst h
        exact Or.inr (Or.inl (json_loads_error_shape _ _ hrep))
      | ok rep =>
        rw [hrep] at h; simp at h
        exact Or.inr (Or.inr h)

theorem rule_init_ok (tp : String) (kbc : Option PyDict) (kwargs : PyDict)
    (st : Stage) (hst : rule_init (.pystr tp) kbc kwargs = .ok st) :
    st.topic = tp ∧ st.outdata_schema_version = 2 := by
  unfold rule_init at hst
  by_cases hb : dictContains (mergedKwargs kbc kwargs) "bootstrap.servers" = true
  · simp [hb] at hst
    subst hst
    exact ⟨rfl, rfl⟩
  · simp [hb] at hst

/-! ### The claims -/

/-- C1: for every `input_msg` whose `org_id` and `account_number` coerce
to integers and whose `timestamp` and `cluster_name` are present, and
every `response` that parses as JSON, `publish` on a stage built by
`__init__` makes exactly one `produce` call, to the configured topic,
whose bytes are the UTF-8 encoding of the JSON serialization of the
envelope `(OrgID, AccountNumber, ClusterName, Report, LastChecked,
Version = 2, RequestId or null)` followed by a single newline. -/
theorem claim_C1_publish_envelope (tp : String) (kbc : Option PyDict)
    (kwargs : PyDict) (st : Stage)
    (hst : rule_init (.pystr tp) kbc kwargs = .ok st)
    (im : PyVal) (resp : String) (org acct : Int) (ts cn rep : PyVal)
    (hOrg : extractOrgId im = .ok org)
    (hAcct : extractAccountNumber im = .ok acct)
    (hTs : subscript im "timestamp" = .ok ts)
    (hCn : subscript im "cluster_name" = .ok cn)
    (hRep : json_loads resp = .ok rep) :
    publish st none im resp =
      { produceCalls := [(tp, utf8Encode
          (json_dumps (mkEnvelope 2 org acct cn rep ts (pyGet im "request_id"))
            ++ "\n"))],
        outcome := none } := by
  obtain ⟨htp, hver⟩ := rule_init_ok tp kbc kwargs st hst
  simp [publish, tryBlock, hOrg, hAcct, hTs, hCn, hRep, htp, hver]

/-- Witness for C1 at the spec's worked example: the example `input_msg`
and `response` produce exactly the spec's example envelope on the wire. -/
theorem claim_C1_witness :
    extractOrgId exampleMsg = .ok 42 ∧
    extractAccountNumber exampleMsg = .ok 7 ∧
    json_loads exampleResp = .ok (.pydict [("a", .pyint 1)]) ∧
    publish exampleStage none exampleMsg exampleResp =
      { produceCalls := [("t", utf8Encode exampleWire)], outcome := none } := by
  refine ⟨rfl, rfl, rfl, ?_⟩
  have h := claim_C1_publish_envelope "t" none
    [("bootstrap.servers", .pystr "kafka:9092")] exampleStage rfl
    exampleMsg exampleResp 42 7 (.pystr "2024-01-01T00:00:00Z") (.pystr "c1")
    (.pydict [("a", .pyint 1)]) rfl rfl rfl rfl rfl
  rw [h]
  rfl

/-- C3: a failing OrgID extraction (missing key, wrong type or
non-numeric value) aborts `publish` with the `CCXMessagingError` naming
the OrgID and wrapping the cause, before the producer is called; a
failing account-number extraction does the same naming the account
number. -/
theorem claim_C3_extraction_errors (st : Stage) (pe : Option PyExc)
    (im : PyVal) (resp : String) :
    (∀ e, extractOrgId im = .error e →
      publish st pe im resp =
        { produceCalls := [],
          outcome := some
            (.ccxMessagingError ("Error extracting the OrgID: " ++ e.str)) }) ∧
    (∀ org e, extractOrgId im = .ok org → extractAccountNumber im = .error e →
      publish st pe im resp =
        { produceCalls := [],
          outcome := some
            (.ccxMessagingError
              ("Error extracting the Account number: " ++ e.str)) }) := by
  constructor
  · intro e he
    simp [publish, he]
  · intro org e hOrg hAcct
    simp [publish, hOrg, hAcct]

/-- Witness for C3: an empty `input_msg` fails naming the OrgID with the
wrapped `KeyError`; a message whose `account_number` is `"abc"` fails
naming the account number with the wrapped `ValueError`.  No producer
call happens in either case. -/
theorem claim_C3_witness :
    publish exampleStage none (.pydict []) exampleResp =
      { produceCalls := [],
        outcome := some
          (.ccxMessagingError "Error extracting the OrgID: 'identity'") } ∧
    publish exampleStage none acctBadMsg exampleResp =
      { produceCalls := [],
        outcome := some (.ccxMessagingError
          ("Error extracting the Account number: " ++
            "invalid literal for int() with base 10: 'abc'")) } := by
  constructor
  · have h := (claim_C3_extraction_errors exampleStage none (.pydict [])
      exampleResp).1 (.keyError "identity") rfl
    rw [h]
    rfl
  · have h := (claim_C3_extraction_errors exampleStage none acctBadMsg
      exampleResp).2 42
      (.valueError "invalid literal for int() with base 10: 'abc'") rfl rfl
    rw [h]
    rfl

/-- C10: a non-dict `input_msg` (e.g. `None` or an integer) fails the
very first subscript with a `TypeError`, which `publish` classifies as
an OrgID extraction failure; the producer is never invoked. -/
theorem claim_C10_nondict_input (st : Stage) (pe : Option PyExc)
    (resp : String) (im : PyVal) (h : im.isDict = false) :
    publish st pe im resp =
      { produceCalls := [],
        outcome := some
          (.ccxMessagingError
            ("Error extracting the OrgID: " ++ subscriptErrMsg im)) } := by
  have hOrg : extractOrgId im = .error (.typeError (subscriptErrMsg im)) := by
    cases im <;> first | rfl | simp [PyVal.isDict] at h
  simp [publish, hOrg, PyExc.str]

/-- Witness for C10 at `None` and at the integer `5`. -/
theorem claim_C10_witness :
    publish exampleStage none .pynone exampleResp =
      { produceCalls := [],
        outcome := some (.ccxMessagingError
          "Error extracting the OrgID: 'NoneType' object is not subscriptable") } ∧
    publish exampleStage none (.pyint 5) exampleResp =
      { produceCalls := [],
        outcome := some (.ccxMessagingError
          "Error extracting the OrgID: 'int' object is not subscriptable") } := by
  constructor
  · have h := claim_C10_nondict_input exampleStage none exampleResp .pynone rfl
    rw [h]
    rfl
  · have h := claim_C10_nondict_input exampleStage none exampleResp (.pyint 5) rfl
    rw [h]
    rfl

/-- C7: with valid identity fields, a missing `timestamp` — and likewise
a present `timestamp` with a missing `cluster_name` — surfaces as the
generic "Missing expected keys in the input message" error, not as a
dedicated named extraction error; the producer is not called. -/
theorem claim_C7_missing_key_generic (st : Stage) (pe : Option PyExc)
    (im : PyVal) (resp : String) (org acct : Int)
    (hOrg : extractOrgId im = .ok org)
    (hAcct : extractAccountNumber im = .ok acct) :
    (∀ k, subscript im "timestamp" = .error (.keyError k) →
      publish st pe im resp =
        { produceCalls := [],
          outcome := some
            (.ccxMessagingError "Missing expected keys in the input message") }) ∧
    (∀ ts k, subscript im "timestamp" = .ok ts →
      subscript im "cluster_name" = .error (.keyError k) →
      publish st pe im resp =
        { produceCalls := [],
          outcome := some
            (.ccxMessagingError "Missing expected keys in the input message") }) := by
  constructor
  · intro k hts
    simp [publish, tryBlock, hOrg, hAcct, hts, PyExc.isKeyError]
  · intro ts k hts hcn
    simp [publish, tryBlock, hOrg, hAcct, hts, hcn, PyExc.isKeyError]

/-- Witness for C7: a message without `timestamp`, and one with
`timestamp` but without `cluster_name`, both produce the generic
missing-key error. -/
theorem claim_C7_witness :
    publish exampleStage none tsMissingMsg exampleResp =
      { produceCalls := [],
        outcome := some
          (.ccxMessagingError "Missing expected keys in the input message") } ∧
    publish exampleStage none cnMissingMsg exampleResp =
      { produceCalls := [],
        outcome := some
          (.ccxMessagingError "Missing expected keys in the input message") } := by
  constructor
  · have h := (claim_C7_missing_key_generic exampleStage none tsMissingMsg
      exampleResp 42 7 rfl rfl).1 "timestamp" rfl
    rw [h]
  · have h := (claim_C7_missing_key_generic exampleStage none cnMissingMsg
      exampleResp 42 7 rfl rfl).2 (.pystr "2024-01-01T00:00:00Z")
      "cluster_name" rfl rfl
    rw [h]

/-- C4 counterexample: an `input_msg` with valid identity fields but no
`timestamp`, together with the non-JSON response `"not json"`, makes
`publish` fail with the generic missing-key classification — not the
encoding-error classification the claim demands for every input with
valid identity fields. -/
theorem claim_C4_counterexample :
    publish exampleStage none tsMissingMsg "not json" =
      { produceCalls := [],
        outcome := some
          (.ccxMessagingError "Missing expected keys in the input message") } ∧
    isEncodingOutcome (publish exampleStage none tsMissingMsg "not json")
      "not json" = false :=
  ⟨rfl, rfl⟩

/-- C4 (amended): for every `input_msg` with valid identity fields whose
`timestamp` and `cluster_name` are also present, a response that does
not parse as JSON makes `publish` fail with the encoding-error
classification wrapping the response, and the producer is never
invoked. -/
theorem claim_C4_amended_encoding_error (st : Stage) (pe : Option PyExc)
    (im : PyVal) (resp : String) (org acct : Int) (ts cn : PyVal) (m : String)
    (hOrg : extractOrgId im = .ok org)
    (hAcct : extractAccountNumber im = .ok acct)
    (hTs : subscript im "timestamp" = .ok ts)
    (hCn : subscript im "cluster_name" = .ok cn)
    (hRep : json_loads resp = .error (.jsonDecodeError m)) :
    publish st pe im resp =
      { produceCalls := [],
        outcome := some
          (.ccxMessagingError
            ("Error encoding the response to publish: " ++ resp)) } := by
  simp [publish, tryBlock, hOrg, hAcct, hTs, hCn, hRep, PyExc.isKeyError,
    PyExc.isEncodingCaught]

/-- Witness for amended C4: the example message with `"not json"`. -/
theorem claim_C4_witness :
    publish exampleStage none exampleMsg "not json" =
      { produceCalls := [],
        outcome := some
          (.ccxMessagingError
            "Error encoding the response to publish: not json") } := by
  have h := claim_C4_amended_encoding_error exampleStage none exampleMsg
    "not json" 42 7 (.pystr "2024-01-01T00:00:00Z") (.pystr "c1")
    "Expecting value" rfl rfl rfl rfl rfl
  rw [h]
  rfl

/-- C5 counterexample: constructing with a valid (string) topic but an
empty broker configuration fails with `KafkaException`, which is not the
stage's typed error — so the missing-broker-address case does not fail
with the spec's `ConfigurationError` classification under the single
umbrella typed-error taxonomy. -/
theorem claim_C5_counterexample :
    rule_init (.pystr "t") (some []) [] =
      .error (.kafkaException "Broker not configured") ∧
    PyExc.isCCX (.kafkaException "Broker not configured") = false :=
  ⟨rfl, rfl⟩

/-- C5 (amended): a non-string topic fails construction with
`CCXMessagingError("outgoing_topic should be a str")`; a merged broker
configuration without `"bootstrap.servers"` fails construction with
`KafkaException("Broker not configured")` (not the stage's typed
error); in both cases construction returns no stage, so no producer
handle is created. -/
theorem claim_C5_amended_config_errors (kbc : Option PyDict) (kwargs : PyDict) :
    (∀ tpv : PyVal, tpv.isStr = false →
      rule_init tpv kbc kwargs =
        .error (.ccxMessagingError "outgoing_topic should be a str")) ∧
    (∀ t : String,
      dictContains (mergedKwargs kbc kwargs) "bootstrap.servers" = false →
      rule_init (.pystr t) kbc kwargs =
        .error (.kafkaException "Broker not configured")) := by
  constructor
  · intro tpv h
    cases tpv <;> first | rfl | simp [PyVal.isStr] at h
  · intro t h
    simp [rule_init, h]

/-- Witness for amended C5 at `outgoing_topic = 123` and at a broker
config with no address. -/
theorem claim_C5_witness :
    rule_init (.pyint 123) none [] =
      .error (.ccxMessagingError "outgoing_topic should be a str") ∧
    rule_init (.pystr "t") (some []) [("client.id", .pystr "x")] =
      .error (.kafkaException "Broker not configured") := by
  constructor
  · exact (claim_C5_amended_config_errors none []).1 (.pyint 123) rfl
  · exact (claim_C5_amended_config_errors (some [])
      [("client.id", .pystr "x")]).2 "t" rfl

/-- C2 counterexample: when the producer rejects the enqueue (modelled
by `produce` raising `BufferError("Local: Queue full")`, which the
confluent-kafka producer raises on a full send buffer), `publish` lets
that `BufferError` escape unconverted — it is not the stage's typed
error, so `publish` does not raise only `CCXMessagingError`. -/
theorem claim_C2_counterexample :
    publish exampleStage (some (.bufferError "Local: Queue full")) exampleMsg
      exampleResp =
      { produceCalls := [("t", utf8Encode exampleWire)],
        outcome := some (.bufferError "Local: Queue full") } ∧
    PyExc.isCCX (.bufferError "Local: Queue full") = false :=
  ⟨rfl, rfl⟩

/-- C2 (amended): every exception `publish` raises is either the stage's
typed error (`CCXMessagingError`) or exactly the exception the producer
raised on `produce` — `KeyError`, `TypeError`, `UnicodeEncodeError` and
`JSONDecodeError` are converted, while producer enqueue failures such as
`BufferError` propagate unconverted. -/
theorem claim_C2_amended_exception_conversion (st : Stage) (pe : Option PyExc)
    (im : PyVal) (resp : String) (e : PyExc)
    (h : (publish st pe im resp).outcome = some e) :
    e.isCCX = true ∨ pe = some e := by
  cases hOrg : extractOrgId im with
  | error e1 =>
    simp [publish, hOrg] at h
    subst h
    exact Or.inl rfl
  | ok org =>
    cases hAcct : extractAccountNumber im with
    | error e1 =>
      simp [publish, hOrg, hAcct] at h
      subst h
      exact Or.inl rfl
    | ok acct =>
      cases hT : tryBlock st pe im resp org acct with
      | mk calls exc =>
        cases exc with
        | none => simp [publish, hOrg, hAcct, hT] at h
        | some e1 =>
          have hshape := tryBlock_exc st pe im resp org acct e1 (by rw [hT])
          by_cases hKE : e1.isKeyError = true
          · simp [publish, hOrg, hAcct, hT, hKE] at h
            subst h
            exact Or.inl rfl
          · by_cases hEC : e1.isEncodingCaught = true
            · simp [publish, hOrg, hAcct, hT, hKE, hEC] at h
              subst h
              exact Or.inl rfl
            · simp [publish, hOrg, hAcct, hT, hKE, hEC] at h
              subst h
              rcases hshape with h1 | h1 | h1
              · exact absurd h1 hKE
              · exact absurd h1 hEC
              · exact Or.inr h1

/-- Witness for amended C2 at a producer `BufferError`. -/
theorem claim_C2_witness :
    PyExc.isCCX (.bufferError "Local: Queue full") = true ∨
      (some (.bufferError "Local: Queue full") : Option PyExc) =
        some (.bufferError "Local: Queue full") :=
  claim_C2_amended_exception_conversion exampleStage
    (some (.bufferError "Local: Queue full")) exampleMsg exampleResp
    (.bufferError "Local: Queue full") (by rfl)

/-- C6: for every `input_msg` (any shape) and every exception, `error`
returns without raising; the exception is normalized to the stage's
typed error when it is not already one, and the (spec-modelled, total)
formatter produces the logged line. -/
theorem claim_C6_error_handler_total (im : PyVal) (ex : PyExc) :
    errorHandler im ex = .ok (ccxFormat (normalizeExc ex).str im) ∧
    (normalizeExc ex).isCCX = true := by
  refine ⟨rfl, ?_⟩
  cases ex <;> rfl

/-- C9: a truthy `kafka_broker_config` block wins over inline keyword
parameters on key collision (its entries are `update`d into `kwargs`
last); an empty or absent block is ignored entirely, so construction
succeeds whenever the inline parameters alone supply
`"bootstrap.servers"`. -/
theorem claim_C9_config_merge (t : String) (c kwargs : PyDict) :
    (∀ k v, keysNodup c = true → dictLookup c k = some v →
      dictLookup (mergedKwargs (some c) kwargs) k = some v) ∧
    mergedKwargs (some []) kwargs = kwargs ∧
    mergedKwargs none kwargs = kwargs ∧
    (∀ bs, dictLookup kwargs "bootstrap.servers" = some bs →
      rule_init (.pystr t) (some []) kwargs =
        .ok { topic := t, producerConfig := kwargs,
              outdata_schema_version := 2 }) := by
  refine ⟨?_, rfl, rfl, ?_⟩
  · intro k v hnd hkv
    cases c with
    | nil => simp [dictLookup] at hkv
    | cons p rest =>
      show dictLookup (dictUpdate kwargs (p :: rest)) k = some v
      exact dictLookup_dictUpdate_mem _ _ _ _ hnd hkv
  · intro bs hbs
    simp [rule_init, mergedKwargs, dictContains, hbs]

/-- Witness for C9: with `bootstrap.servers` defined both in the broker
block and inline, the block's value wins; with an empty block and the
address inline, construction succeeds. -/
theorem claim_C9_witness :
    dictLookup (mergedKwargs (some [("bootstrap.servers", .pystr "kbc:1")])
      [("bootstrap.servers", .pystr "inline:1")]) "bootstrap.servers" =
      some (.pystr "kbc:1") ∧
    rule_init (.pystr "t") (some []) [("bootstrap.servers", .pystr "inline:1")] =
      .ok { topic := "t",
            producerConfig := [("bootstrap.servers", .pystr "inline:1")],
            outdata_schema_version := 2 } := by
  constructor
  · exact (claim_C9_config_merge "t" [("bootstrap.servers", .pystr "kbc:1")]
      [("bootstrap.servers", .pystr "inline:1")]).1 "bootstrap.servers"
      (.pystr "kbc:1") rfl rfl
  · exact (claim_C9_config_merge "t" [] [("bootstrap.servers", .pystr "inline:1")]
      ).2.2.2 (.pystr "inline:1") rfl

/-! ### UTF-8 round trip -/

theorem isCont_true (b : Nat) (h1 : 0x80 ≤ b) (h2 : b < 0xc0) : isCont b = true := by
  simp [isCont]
  omega

theorem utf8DecodeOne_char (c : Char) (bs : List Nat) :
    utf8DecodeOne (utf8Char c ++ bs) = some (c, bs) := by
  have hv : c.toNat < 0xd800 ∨ (0xdfff < c.toNat ∧ c.toNat < 0x110000) := c.valid
  rw [utf8Char]
  by_cases h1 : c.toNat < 0x80
  · rw [if_pos h1]
    show utf8DecodeOne (c.toNat :: bs) = _
    rw [utf8DecodeOne.eq_def]
    simp only []
    rw [if_pos h1, Char.ofNat_toNat]
  · rw [if_neg h1]
    by_cases h2 : c.toNat < 0x800
    · rw [if_pos h2]
      show utf8DecodeOne ((0xc0 + c.toNat / 0x40) :: (0x80 + c.toNat % 0x40) :: bs) = _
      rw [utf8DecodeOne.eq_def]
      simp only []
      rw [if_neg (by omega), if_neg (by omega), if_pos (by omega)]
      rw [utf8DecCont1.eq_def]
      simp only []
      rw [if_pos (isCont_true _ (by omega) (by omega))]
      have hval : (0xc0 + c.toNat / 0x40 - 0xc0) * 0x40 + (0x80 + c.toNat % 0x40 - 0x80)
          = c.toNat := by omega
      rw [hval, Char.ofNat_toNat]
    · rw [if_neg h2]
      by_cases h3 : c.toNat < 0x10000
      · rw [if_pos h3]
        show utf8DecodeOne ((0xe0 + c.toNat / 0x1000) ::
          (0x80 + c.toNat / 0x40 % 0x40) :: (0x80 + c.toNat % 0x40) :: bs) = _
        rw [utf8DecodeOne.eq_def]
        simp only []
        rw [if_neg (by omega), if_neg (by omega), if_neg (by omega), if_pos (by omega)]
        rw [utf8DecCont2.eq_def]
        simp only []
        rw [if_pos (And.intro (isCont_true _ (by omega) (by omega))
          (isCont_true _ (by omega) (by omega)))]
        have hval : (0xe0 + c.toNat / 0x1000 - 0xe0) * 0x1000 +
            (0x80 + c.toNat / 0x40 % 0x40 - 0x80) * 0x40 + (0x80 + c.toNat % 0x40 - 0x80)
            = c.toNat := by omega
        rw [hval]
        rw [if_pos (And.intro (by omega) (by rcases hv with hv | hv <;> omega))]
        rw [Char.ofNat_toNat]
      · rw [if_neg h3]
        show utf8DecodeOne ((0xf0 + c.toNat / 0x40000) ::
          (0x80 + c.toNat / 0x1000 % 0x40) :: (0x80 + c.toNat / 0x40 % 0x40) ::
          (0x80 + c.toNat % 0x40) :: bs) = _
        rw [utf8DecodeOne.eq_def]
        simp only []
        rw [if_neg (by omega), if_neg (by omega), if_neg (by omega), if_neg (by omega),
          if_pos (by rcases hv with hv | hv <;> omega)]
        rw [utf8DecCont3.eq_def]
        simp only []
        rw [if_pos (And.intro (isCont_true _ (by omega) (by omega))
          (And.intro (isCont_true _ (by omega) (by omega))
            (isCont_true _ (by omega) (by omega))))]
        have hval : (0xf0 + c.toNat / 0x40000 - 0xf0) * 0x40000 +
            (0x80 + c.toNat / 0x1000 % 0x40 - 0x80) * 0x1000 +
            (0x80 + c.toNat / 0x40 % 0x40 - 0x80) * 0x40 + (0x80 + c.toNat % 0x40 - 0x80)
            = c.toNat := by omega
        rw [hval]
        rw [if_pos (And.intro (by rcases hv with hv | hv <;> omega)
          (by rcases hv with hv | hv <;> omega))]
        rw [Char.ofNat_toNat]

theorem utf8Char_cons (c : Char) : ∃ b tl, utf8Char c = b :: tl := by
  rw [utf8Char]
  split_ifs <;> exact ⟨_, _, rfl⟩

theorem utf8DecodeAux_foldr (cs : List Char) :
    ∀ fuel, cs.length ≤ fuel →
      utf8DecodeAux fuel (cs.foldr (fun c a => utf8Char c ++ a) []) = some cs := by
  induction cs with
  | nil =>
    intro fuel _
    cases fuel <;> rfl
  | cons c rest ih =>
    intro fuel hfuel
    cases fuel with
    | zero => simp at hfuel
    | succ f =>
      simp only [List.foldr_cons]
      obtain ⟨b, tl, hsplit⟩ := utf8Char_cons c
      rw [hsplit, List.cons_append]
      show (match utf8DecodeOne (b :: (tl ++ rest.foldr (fun c a => utf8Char c ++ a) []))
        with
      | some (c, rest) => (utf8DecodeAux f rest).map (fun cs => c :: cs)
      | none => none) = some (c :: rest)
      rw [← List.cons_append, ← hsplit, utf8DecodeOne_char]
      simp only []
      rw [ih f (by simpa using hfuel)]
      rfl

theorem utf8_foldr_length (cs : List Char) :
    cs.length ≤ (cs.foldr (fun c a => utf8Char c ++ a) []).length := by
  induction cs with
  | nil => simp
  | cons c rest ih =>
    obtain ⟨b, tl, hsplit⟩ := utf8Char_cons c
    simp only [List.foldr_cons, List.length_cons, List.length_append, hsplit]
    omega

/-- Decoding the UTF-8 encoding of a string recovers the string. -/
theorem utf8Decode_utf8Encode (s : String) : utf8Decode (utf8Encode s) = some s := by
  show (utf8DecodeAux (utf8Encode s).length (utf8Encode s)).map String.mk = some s
  have h1 : utf8Encode s = s.data.foldr (fun c a => utf8Char c ++ a) [] := rfl
  rw [h1, utf8DecodeAux_foldr s.data _ (by rw [← h1]; exact utf8_foldr_length s.data)]
  rfl

/-! ### JSON string escaping round trip -/

theorem hexVal_hexDigitChar : ∀ d, d < 16 → hexVal (hexDigitChar d) = some d := by
  decide

theorem parse4Hex_hex4 (n : Nat) (h : n < 0x10000) (rest : List Char) :
    parse4Hex (hex4 n ++ rest) = some (n, rest) := by
  show parse4Hex (hexDigitChar (n / 4096 % 16) :: hexDigitChar (n / 256 % 16) ::
    hexDigitChar (n / 16 % 16) :: hexDigitChar (n % 16) :: rest) = some (n, rest)
  rw [parse4Hex.eq_def]
  simp only []
  rw [hexVal_hexDigitChar _ (by omega), hexVal_hexDigitChar _ (by omega),
    hexVal_hexDigitChar _ (by omega), hexVal_hexDigitChar _ (by omega)]
  simp only []
  congr 1
  ext
  · show n / 4096 % 16 * 4096 + n / 256 % 16 * 256 + n / 16 % 16 * 16 + n % 16 = n
    omega
  · rfl

theorem parseLowSurrogate_hex4 (v w : Nat) (rest : List Char) (hw : w < 0x10000)
    (hlo : 0xdc00 ≤ w ∧ w ≤ 0xdfff) :
    parseLowSurrogate v ('\\' :: 'u' :: (hex4 w ++ rest)) =
      some (Char.ofNat (0x10000 + (v - 0xd800) * 0x400 + (w - 0xdc00)), rest) := by
  rw [parseLowSurrogate.eq_def]
  simp only []
  rw [parse4Hex_hex4 _ hw]
  simp only []
  rw [if_pos hlo]

theorem parseEscape_u_pair (c : Char) (rest : List Char)
    (hv : c.toNat < 0xd800 ∨ (0xdfff < c.toNat ∧ c.toNat < 0x110000))
    (h9 : ¬c.toNat < 0x10000) :
    parseEscape ('u' :: (hex4 (0xd800 + (c.toNat - 0x10000) / 0x400) ++
      ('\\' :: 'u' :: (hex4 (0xdc00 + (c.toNat - 0x10000) % 0x400) ++ rest)))) =
      some (c, rest) := by
  rw [parseEscape.eq_def]
  simp only []
  rw [if_neg (by decide), if_neg (by decide), if_neg (by decide),
    if_neg (by decide), if_neg (by decide), if_neg (by decide),
    if_neg (by decide), if_neg (by decide)]
  simp only [if_true]
  rw [parse4Hex_hex4 _ (by rcases hv with hv | hv <;> omega)]
  simp only []
  rw [if_neg (by push_neg; constructor <;> omega),
    if_pos (by rcases hv with hv | hv <;> omega)]
  rw [parseLowSurrogate_hex4 _ _ _ (by omega) (And.intro (by omega) (by omega))]
  have hval : 0x10000 + (0xd800 + (c.toNat - 0x10000) / 0x400 - 0xd800) * 0x400 +
      (0xdc00 + (c.toNat - 0x10000) % 0x400 - 0xdc00) = c.toNat := by
    rcases hv with hv | hv <;> omega
  rw [hval, Char.ofNat_toNat]

theorem parseJStrAux_plain (c : Char) (fuel : Nat) (rest acc : List Char)
    (h1 : ¬c = '"') (h2 : ¬c = '\\') (h8 : 0x20 ≤ c.toNat) :
    parseJStrAux (fuel + 1) (c :: rest) acc = parseJStrAux fuel rest (c :: acc) := by
  rw [parseJStrAux.eq_def]
  simp only []
  rw [if_neg h1, if_neg h2, if_neg (by omega)]

theorem parseJStrAux_u_bmp (c : Char) (fuel : Nat) (rest acc : List Char)
    (hv : c.toNat < 0xd800 ∨ (0xdfff < c.toNat ∧ c.toNat < 0x110000))
    (h9 : c.toNat < 0x10000) :
    parseJStrAux (fuel + 1) ('\\' :: 'u' :: (hex4 c.toNat ++ rest)) acc =
      parseJStrAux fuel rest (c :: acc) := by
  rw [parseJStrAux.eq_def]
  simp only []
  rw [if_neg (by decide)]
  simp only [if_true]
  rw [parseEscape.eq_def]
  simp only []
  rw [if_neg (by decide), if_neg (by decide), if_neg (by decide),
    if_neg (by decide), if_neg (by decide), if_neg (by decide),
    if_neg (by decide), if_neg (by decide)]
  simp only [if_true]
  rw [parse4Hex_hex4 c.toNat h9]
  simp only []
  rw [if_pos (by rcases hv with hv | hv <;> omega)]
  rw [Char.ofNat_toNat]

theorem parseJStrAux_u_pair (c : Char) (fuel : Nat) (rest acc : List Char)
    (hv : c.toNat < 0xd800 ∨ (0xdfff < c.toNat ∧ c.toNat < 0x110000))
    (h9 : ¬c.toNat < 0x10000) :
    parseJStrAux (fuel + 1)
      ('\\' :: 'u' :: (hex4 (0xd800 + (c.toNat - 0x10000) / 0x400) ++
        ('\\' :: 'u' :: (hex4 (0xdc00 + (c.toNat - 0x10000) % 0x400) ++ rest)))) acc
      = parseJStrAux fuel rest (c :: acc) := by
  rw [parseJStrAux.eq_def]
  simp only []
  rw [if_neg (by decide)]
  simp only [if_true]
  rw [parseEscape_u_pair c rest hv h9]

theorem parseJStrAux_escapeChar (c : Char) (fuel : Nat) (rest acc : List Char) :
    parseJStrAux (fuel + 1) (escapeChar c ++ rest) acc =
      parseJStrAux fuel rest (c :: acc) := by
  have hv : c.toNat < 0xd800 ∨ (0xdfff < c.toNat ∧ c.toNat < 0x110000) := c.valid
  by_cases h1 : c = '"'
  · subst h1
    rw [show escapeChar '"' = ['\\', '"'] from rfl]
    simp [parseJStrAux, parseEscape]
  by_cases h2 : c = '\\'
  · subst h2
    rw [show escapeChar '\\' = ['\\', '\\'] from rfl]
    simp [parseJStrAux, parseEscape]
  by_cases h3 : c = '\x08'
  · subst h3
    rw [show escapeChar '\x08' = ['\\', 'b'] from rfl]
    simp [parseJStrAux, parseEscape]
  by_cases h4 : c = '\x0c'
  · subst h4
    rw [show escapeChar '\x0c' = ['\\', 'f'] from rfl]
    simp [parseJStrAux, parseEscape]
  by_cases h5 : c = '\n'
  · subst h5
    rw [show escapeChar '\n' = ['\\', 'n'] from rfl]
    simp [parseJStrAux, parseEscape]
  by_cases h6 : c = '\r'
  · subst h6
    rw [show escapeChar '\r' = ['\\', 'r'] from rfl]
    simp [parseJStrAux, parseEscape]
  by_cases h7 : c = '\t'
  · subst h7
    rw [show escapeChar '\t' = ['\\', 't'] from rfl]
    simp [parseJStrAux, parseEscape]
  by_cases h8 : 0x20 ≤ c.toNat ∧ c.toNat ≤ 0x7e
  · have he : escapeChar c = [c] := by
      rw [escapeChar, if_neg h1, if_neg h2, if_neg h3, if_neg h4, if_neg h5,
        if_neg h6, if_neg h7, if_pos h8]
    rw [he]
    exact parseJStrAux_plain c fuel rest acc h1 h2 h8.1
  by_cases h9 : c.toNat < 0x10000
  · have he : escapeChar c = '\\' :: 'u' :: hex4 c.toNat := by
      rw [escapeChar, if_neg h1, if_neg h2, if_neg h3, if_neg h4, if_neg h5,
        if_neg h6, if_neg h7, if_neg h8, if_pos h9]
    rw [he]
    exact parseJStrAux_u_bmp c fuel rest acc hv h9
  · have he : escapeChar c =
        ('\\' :: 'u' :: hex4 (0xd800 + (c.toNat - 0x10000) / 0x400)) ++
          ('\\' :: 'u' :: hex4 (0xdc00 + (c.toNat - 0x10000) % 0x400)) := by
      rw [escapeChar, if_neg h1, if_neg h2, if_neg h3, if_neg h4, if_neg h5,
        if_neg h6, if_neg h7, if_neg h8, if_neg h9]
    rw [he]
    exact parseJStrAux_u_pair c fuel rest acc hv h9

theorem parseJStrAux_escape_list (cs : List Char) :
    ∀ fuel acc rest, cs.length < fuel →
      parseJStrAux fuel ((cs.foldr (fun c a => escapeChar c ++ a) []) ++ '"' :: rest)
        acc = some (String.mk (acc.reverse ++ cs), rest) := by
  induction cs with
  | nil =>
    intro fuel acc rest hfuel
    obtain ⟨f, rfl⟩ : ∃ f, fuel = f + 1 := ⟨fuel - 1, by omega⟩
    simp [parseJStrAux]
  | cons c cs ih =>
    intro fuel acc rest hfuel
    obtain ⟨f, rfl⟩ : ∃ f, fuel = f + 1 := ⟨fuel - 1, by omega⟩
    simp only [List.foldr_cons, List.append_assoc]
    rw [parseJStrAux_escapeChar]
    rw [ih f (c :: acc) rest (by simp at hfuel; omega)]
    simp

theorem escapeChar_exists_cons (c : Char) : ∃ d tl, escapeChar c = d :: tl := by
  rw [escapeChar]
  split_ifs <;> exact ⟨_, _, rfl⟩

/-- The escaped form of a string is at least as long as the string. -/
theorem escape_foldr_length (cs : List Char) :
    cs.length ≤ (cs.foldr (fun c a => escapeChar c ++ a) []).length := by
  induction cs with
  | nil => simp
  | cons c rest ih =>
    obtain ⟨d, tl, hd⟩ := escapeChar_exists_cons c
    simp only [List.foldr_cons, List.length_cons, List.length_append, hd]
    omega

/-! ### Number literal round trip -/

theorem natDigitsAux_fuel : ∀ f1 f2 n, n < f1 → n < f2 →
    natDigitsAux f1 n = natDigitsAux f2 n := by
  intro f1
  induction f1 with
  | zero => intro f2 n h1 _; omega
  | succ f1 ih =>
    intro f2 n h1 h2
    obtain ⟨g, rfl⟩ : ∃ g, f2 = g + 1 := ⟨f2 - 1, by omega⟩
    by_cases h : n < 10
    · simp only [natDigitsAux]
      rw [if_pos h, if_pos h]
    · simp only [natDigitsAux]
      rw [if_neg h, if_neg h, ih g (n / 10) (by omega) (by omega)]

theorem natDigits_lt10 (n : Nat) (h : n < 10) :
    natDigits n = [Char.ofNat (48 + n)] := by
  show natDigitsAux (n + 1) n = _
  simp only [natDigitsAux]
  rw [if_pos h]

theorem natDigits_ge10 (n : Nat) (h : 10 ≤ n) :
    natDigits n = natDigits (n / 10) ++ [Char.ofNat (48 + n % 10)] := by
  show natDigitsAux (n + 1) n = _
  rw [natDigitsAux.eq_def]
  simp only []
  rw [if_neg (by omega)]
  show natDigitsAux n (n / 10) ++ _ = natDigitsAux (n / 10 + 1) (n / 10) ++ _
  rw [natDigitsAux_fuel n (n / 10 + 1) (n / 10) (by omega) (by omega)]

theorem digitChar_isDigit : ∀ m, m < 10 → (Char.ofNat (48 + m)).isDigit = true := by
  decide

theorem digitChar_toNat : ∀ m, m < 10 → (Char.ofNat (48 + m)).toNat = 48 + m := by
  decide

theorem digitChar_ne_zero : ∀ m, m < 10 → m ≠ 0 → Char.ofNat (48 + m) ≠ '0' := by
  decide

theorem natDigits_all_digits (n : Nat) : ∀ c ∈ natDigits n, c.isDigit = true := by
  induction n using Nat.strong_induction_on with
  | _ n ih =>
    by_cases h : n < 10
    · rw [natDigits_lt10 n h]
      intro c hc
      simp at hc
      subst hc
      exact digitChar_isDigit n h
    · rw [natDigits_ge10 n (by omega)]
      intro c hc
      rcases List.mem_append.mp hc with h1 | h1
      · exact ih (n / 10) (by omega) c h1
      · simp at h1
        subst h1
        exact digitChar_isDigit (n % 10) (by omega)

theorem natDigits_cons (n : Nat) :
    ∃ c ds, natDigits n = c :: ds ∧ c.isDigit = true ∧ (c = '0' → n = 0) := by
  induction n using Nat.strong_induction_on with
  | _ n ih =>
    by_cases h : n < 10
    · rw [natDigits_lt10 n h]
      refine ⟨_, [], rfl, digitChar_isDigit n h, fun hc => ?_⟩
      by_contra hn
      exact digitChar_ne_zero n h hn hc
    · rw [natDigits_ge10 n (by omega)]
      obtain ⟨c, ds, hds, hdig, hzero⟩ := ih (n / 10) (by omega)
      refine ⟨c, ds ++ [Char.ofNat (48 + n % 10)], by rw [hds]; rfl, hdig,
        fun hc => ?_⟩
      have := hzero hc
      omega

theorem scanDigits_stop (cs : List Char) (acc : Nat) (h : numEndOk cs = true) :
    scanDigits cs acc = (acc, cs) := by
  cases cs with
  | nil => rfl
  | cons c tl =>
    simp [numEndOk] at h
    simp [scanDigits, h.1]

theorem scanDigits_run (ds : List Char) : ∀ tl acc,
    (∀ c ∈ ds, c.isDigit = true) → numEndOk tl = true →
    scanDigits (ds ++ tl) acc =
      (ds.foldl (fun a c => a * 10 + (c.toNat - 48)) acc, tl) := by
  induction ds with
  | nil =>
    intro tl acc _ h
    simpa using scanDigits_stop tl acc h
  | cons d ds ih =>
    intro tl acc hall h
    have hd : d.isDigit = true := hall d (by simp)
    show scanDigits (d :: (ds ++ tl)) acc = _
    rw [scanDigits.eq_def]
    simp only []
    rw [if_pos hd, ih tl _ (fun c hc => hall c (by simp [hc])) h]
    simp

theorem natDigits_foldl (n : Nat) : ∀ acc,
    (natDigits n).foldl (fun a c => a * 10 + (c.toNat - 48)) acc =
      acc * 10 ^ (natDigits n).length + n := by
  induction n using Nat.strong_induction_on with
  | _ n ih =>
    intro acc
    by_cases h : n < 10
    · rw [natDigits_lt10 n h]
      simp [digitChar_toNat n h]
    · rw [natDigits_ge10 n (by omega), List.foldl_append,
        ih (n / 10) (by omega) acc]
      simp only [List.foldl_cons, List.foldl_nil, List.length_append,
        List.length_cons, List.length_nil]
      rw [digitChar_toNat (n % 10) (by omega)]
      have hdm : n / 10 * 10 + n % 10 = n := by omega
      have hpow : 10 ^ ((natDigits (n / 10)).length + (0 + 1)) =
          10 ^ (natDigits (n / 10)).length * 10 := by
        rw [Nat.zero_add, pow_succ]
      rw [hpow]
      calc (acc * 10 ^ (natDigits (n / 10)).length + n / 10) * 10 + (48 + n % 10 - 48)
          = acc * (10 ^ (natDigits (n / 10)).length * 10) +
            (n / 10 * 10 + n % 10) := by ring_nf; congr 1; omega
        _ = acc * (10 ^ (natDigits (n / 10)).length * 10) + n := by rw [hdm]

theorem startsFloatPart_of_numEndOk (cs : List Char) (h : numEndOk cs = true) :
    startsFloatPart cs = false := by
  cases cs with
  | nil => rfl
  | cons c tl =>
    simp [numEndOk] at h
    simp [startsFloatPart]
    tauto

theorem parseJNat_natDigits (n : Nat) (tl : List Char) (h : numEndOk tl = true) :
    parseJNat (natDigits n ++ tl) = some (n, tl) := by
  have hfl : startsFloatPart tl = false := startsFloatPart_of_numEndOk tl h
  by_cases hn : n = 0
  · subst hn
    rw [show natDigits 0 = ['0'] from rfl]
    show parseJNat ('0' :: tl) = _
    simp [parseJNat, hfl]
  · obtain ⟨c, ds, hds, hdig, hzero⟩ := natDigits_cons n
    have hall : ∀ x ∈ ds, x.isDigit = true := by
      intro x hx
      exact natDigits_all_digits n x (by rw [hds]; exact List.mem_cons_of_mem c hx)
    rw [hds]
    show parseJNat (c :: (ds ++ tl)) = _
    rw [parseJNat.eq_def]
    simp only []
    rw [if_neg (fun hc => hn (hzero hc)), if_pos hdig,
      scanDigits_run ds tl (c.toNat - 48) hall h]
    simp only []
    rw [hfl]
    simp only [Bool.false_eq_true, if_false]
    have hv : ds.foldl (fun a c => a * 10 + (c.toNat - 48)) (c.toNat - 48) = n := by
      have h0 := natDigits_foldl n 0
      rw [hds] at h0
      simpa using h0
    rw [hv]

theorem numEndOk_of_delimOk (cs : List Char) (h : delimOk cs = true) :
    numEndOk cs = true := by
  cases cs with
  | nil => rfl
  | cons c tl =>
    simp [delimOk, jsonWsChar] at h
    rcases h with rfl | rfl | rfl | rfl | rfl | rfl | rfl <;> rfl

/-! ### Printed values parse back: per-constructor lemmas -/

theorem jsize_pos (v : PyVal) : 1 ≤ jsize v := by
  cases v <;> simp [jsize] <;> omega

theorem isDigit_char_facts (c : Char) (h : c.isDigit = true) :
    jsonWsChar c = false ∧ c ≠ ']' ∧ c ≠ lbrace ∧ c ≠ '[' ∧ c ≠ '"' ∧
      c ≠ 't' ∧ c ≠ 'f' ∧ c ≠ 'n' ∧ c ≠ '-' := by
  simp [Char.isDigit] at h
  refine ⟨?_, ?_, ?_, ?_, ?_, ?_, ?_, ?_, ?_⟩
  · simp [jsonWsChar]
    refine ⟨?_, ?_, ?_, ?_⟩ <;> rintro rfl <;> exact absurd h (by decide)
  all_goals rintro rfl <;> exact absurd h (by decide)

/-- The first character of a printed value: never whitespace, never a
closing bracket. -/
theorem dumpVal_cons (v : PyVal) :
    ∃ c tl, dumpVal v = c :: tl ∧ jsonWsChar c = false ∧ c ≠ ']' := by
  cases v with
  | pynone => exact ⟨'n', _, rfl, by decide, by decide⟩
  | pybool b => cases b
                · exact ⟨'f', _, rfl, by decide, by decide⟩
                · exact ⟨'t', _, rfl, by decide, by decide⟩
  | pyint n =>
    show ∃ c tl, intChars n = c :: tl ∧ _
    rw [intChars]
    by_cases h : n < 0
    · rw [if_pos h]
      exact ⟨'-', _, rfl, by decide, by decide⟩
    · rw [if_neg h]
      obtain ⟨c, ds, hds, hdig, _⟩ := natDigits_cons n.toNat
      obtain ⟨hws, hbr, _⟩ := isDigit_char_facts c hdig
      exact ⟨c, ds, hds, hws, hbr⟩
  | pystr s => exact ⟨'"', _, rfl, by decide, by decide⟩
  | pylist items => exact ⟨'[', _, rfl, by decide, by decide⟩
  | pydict entries => exact ⟨lbrace, _, rfl, by decide, by decide⟩

theorem skipWs_cons_not_ws (c : Char) (tl : List Char) (h : jsonWsChar c = false) :
    skipWs (c :: tl) = c :: tl := by
  simp [skipWs, List.dropWhile_cons, h]

/-- Whitespace skipping does not touch the printed form of a value. -/
theorem skipWs_dump (v : PyVal) (rest : List Char) :
    skipWs (dumpVal v ++ rest) = dumpVal v ++ rest := by
  obtain ⟨c, tl, hc, hws, _⟩ := dumpVal_cons v
  rw [hc]
  exact skipWs_cons_not_ws c _ hws

theorem parseVal_null (f : Nat) (rest : List Char) :
    parseVal (f + 1) (dumpVal .pynone ++ rest) = some (.pynone, rest) := by
  show parseVal (f + 1) ('n' :: 'u' :: 'l' :: 'l' :: rest) = _
  simp [parseVal, lbrace]

theorem parseVal_true (f : Nat) (rest : List Char) :
    parseVal (f + 1) (dumpVal (.pybool true) ++ rest) = some (.pybool true, rest) := by
  show parseVal (f + 1) ('t' :: 'r' :: 'u' :: 'e' :: rest) = _
  simp [parseVal, lbrace]

theorem parseVal_false (f : Nat) (rest : List Char) :
    parseVal (f + 1) (dumpVal (.pybool false) ++ rest) = some (.pybool false, rest) := by
  show parseVal (f + 1) ('f' :: 'a' :: 'l' :: 's' :: 'e' :: rest) = _
  simp [parseVal, lbrace]

theorem parseVal_str (s : String) (f : Nat) (rest : List Char) :
    parseVal (f + 1) (dumpVal (.pystr s) ++ rest) = some (.pystr s, rest) := by
  show parseVal (f + 1) ('"' :: ((escapeStr s ++ ['"']) ++ rest)) = _
  rw [parseVal.eq_def]
  simp only []
  rw [if_neg (by decide), if_neg (by decide)]
  simp only [if_true]
  rw [List.append_assoc]
  show (parseJStrAux (escapeStr s ++ '"' :: rest).length
    (escapeStr s ++ '"' :: rest) []).map (fun p => (PyVal.pystr p.1, p.2)) = _
  rw [show escapeStr s = s.data.foldr (fun c a => escapeChar c ++ a) [] from rfl]
  rw [parseJStrAux_escape_list s.data _ [] rest (by
    have h1 := escape_foldr_length s.data
    have h2 : s.length = s.data.length := rfl
    simp [List.length_append]
    omega)]
  rfl

theorem parseVal_int (n : Int) (f : Nat) (rest : List Char)
    (hend : numEndOk rest = true) :
    parseVal (f + 1) (dumpVal (.pyint n) ++ rest) = some (.pyint n, rest) := by
  show parseVal (f + 1) (intChars n ++ rest) = _
  rw [intChars]
  by_cases h : n < 0
  · rw [if_pos h]
    show parseVal (f + 1) ('-' :: (natDigits (-n).toNat ++ rest)) = _
    rw [parseVal.eq_def]
    simp only []
    rw [if_neg (by decide), if_neg (by decide), if_neg (by decide),
      if_neg (by decide), if_neg (by decide), if_neg (by decide)]
    simp only [if_true]
    rw [parseJNat_natDigits _ rest hend]
    simp only [Option.map_some']
    have hn2 : (((-n).toNat : Int)) = -n := by omega
    rw [hn2, neg_neg]
  · rw [if_neg h]
    obtain ⟨c, ds, hds, hdig, _⟩ := natDigits_cons n.toNat
    obtain ⟨_, _, hlb, hsq, hq, ht, hf2, hn2, hm⟩ := isDigit_char_facts c hdig
    rw [hds]
    show parseVal (f + 1) (c :: (ds ++ rest)) = _
    rw [parseVal.eq_def]
    simp only []
    rw [if_neg hlb, if_neg hsq, if_neg hq, if_neg ht, if_neg hf2, if_neg hn2,
      if_neg hm]
    show (parseJNat (c :: (ds ++ rest))).map (fun p => (PyVal.pyint (p.1 : Int), p.2))
      = _
    rw [show (c :: (ds ++ rest)) = (c :: ds) ++ rest from rfl, ← hds,
      parseJNat_natDigits _ rest hend]
    simp only [Option.map_some']
    have hn2 : ((n.toNat : Int)) = n := by omega
    rw [hn2]

/-! ### Printed containers parse back: the item and member loops -/

theorem dictContains_append (a b : PyDict) (k : String) :
    dictContains (a ++ b) k = (dictContains a k || dictContains b k) := by
  induction a with
  | nil => simp [dictContains, dictLookup]
  | cons p rest ih =>
    obtain ⟨k0, v0⟩ := p
    by_cases h : k0 = k
    · subst h; simp [dictContains, dictLookup]
    · simpa [dictContains, dictLookup, h] using ih

theorem keysNodup_append_cons (acc : PyDict) (k : String) (v : PyVal)
    (rest : PyDict) (h : keysNodup (acc ++ (k, v) :: rest) = true) :
    dictContains acc k = false := by
  induction acc with
  | nil => rfl
  | cons p acc2 ih =>
    obtain ⟨k0, v0⟩ := p
    have h1 : dictContains (acc2 ++ (k, v) :: rest) k0 = false := by
      have h' := h
      simp only [List.cons_append, keysNodup, Bool.and_eq_true,
        Bool.not_eq_true'] at h'
      exact h'.1
    have h2 : keysNodup (acc2 ++ (k, v) :: rest) = true := by
      have h' := h
      simp only [List.cons_append, keysNodup, Bool.and_eq_true,
        Bool.not_eq_true'] at h'
      exact h'.2
    by_cases hk : k0 = k
    · exfalso
      subst hk
      rw [dictContains_append] at h1
      simp [dictContains, dictLookup] at h1
    · simp [dictContains, dictLookup, hk]
      simpa [dictContains] using ih h2

theorem dictInsert_append (d : PyDict) (k : String) (v : PyVal)
    (h : dictContains d k = false) : dictInsert d k v = d ++ [(k, v)] := by
  induction d with
  | nil => rfl
  | cons p rest ih =>
    obtain ⟨k0, v0⟩ := p
    have hk : k0 ≠ k := by
      intro he
      subst he
      simp [dictContains, dictLookup] at h
    have hrest : dictContains rest k = false := by
      simpa [dictContains, dictLookup, hk] using h
    simp [dictInsert, hk, ih hrest]

theorem skipWs_dumpItems (v : PyVal) (vs : List PyVal) (rest : List Char) :
    skipWs (dumpItems (v :: vs) ++ rest) = dumpItems (v :: vs) ++ rest := by
  cases vs with
  | nil => exact skipWs_dump v rest
  | cons b l =>
    show skipWs ((dumpVal v ++ ',' :: ' ' :: dumpItems (b :: l)) ++ rest) =
      (dumpVal v ++ ',' :: ' ' :: dumpItems (b :: l)) ++ rest
    rw [List.append_assoc]
    exact skipWs_dump v _

theorem dumpEntries_cons_quote (p : String × PyVal) (ps : List (String × PyVal)) :
    ∃ tl, dumpEntries (p :: ps) = '"' :: tl := by
  obtain ⟨k, v⟩ := p
  cases ps with
  | nil => exact ⟨_, rfl⟩
  | cons q qs => exact ⟨_, rfl⟩

theorem skipWs_dumpEntries (p : String × PyVal) (ps : List (String × PyVal))
    (rest : List Char) :
    skipWs (dumpEntries (p :: ps) ++ rest) = dumpEntries (p :: ps) ++ rest := by
  obtain ⟨tl, htl⟩ := dumpEntries_cons_quote p ps
  rw [htl]
  exact skipWs_cons_not_ws '"' _ (by decide)

theorem parseItems_succ (g : Nat) (cs : List Char) (acc : List PyVal) :
    parseItems (g + 1) cs acc =
      match parseVal g cs with
      | some (v, rest) =>
        match skipWs rest with
        | c :: rest2 =>
          if c = ',' then parseItems g (skipWs rest2) (acc ++ [v])
          else if c = ']' then some (.pylist (acc ++ [v]), rest2)
          else none
        | [] => none
      | none => none := rfl

theorem parseMembers_quote (g : Nat) (R : List Char)
    (acc : List (String × PyVal)) :
    parseMembers (g + 1) ('"' :: R) acc =
      match parseJStrAux R.length R [] with
      | some (k, rest2) =>
        match skipWs rest2 with
        | c1 :: rest3 =>
          if c1 = ':' then
            match parseVal g (skipWs rest3) with
            | some (v, rest4) =>
              match skipWs rest4 with
              | c2 :: rest5 =>
                if c2 = ',' then parseMembers g (skipWs rest5) (dictInsert acc k v)
                else if c2 = rbrace then some (.pydict (dictInsert acc k v), rest5)
                else none
              | [] => none
            | none => none
          else none
        | [] => none
      | none => none := rfl

theorem parseItems_loop (items : List PyVal) :
    (∀ v ∈ items, ∀ fuel rest, jsize v ≤ fuel → delimOk rest = true →
      parseVal fuel (dumpVal v ++ rest) = some (v, rest)) →
    ∀ fuel acc rest, wfItems items = true → items ≠ [] →
      jsizeItems items ≤ fuel → delimOk rest = true →
      parseItems fuel (dumpItems items ++ ']' :: rest) acc =
        some (.pylist (acc ++ items), rest) := by
  induction items with
  | nil =>
    intro _ fuel acc rest _ hne _ _
    exact absurd rfl hne
  | cons v vs ihl =>
    intro IH fuel acc rest hwf _ hfuel hrest
    have hwf2 : wfVal v = true ∧ wfItems vs = true := by
      simpa [wfItems, Bool.and_eq_true] using hwf
    obtain ⟨g, rfl⟩ : ∃ g, fuel = g + 1 :=
      ⟨fuel - 1, by simp [jsizeItems] at hfuel; omega⟩
    rw [parseItems_succ]
    cases vs with
    | nil =>
      rw [show dumpItems [v] ++ ']' :: rest = dumpVal v ++ ']' :: rest from rfl]
      rw [IH v (by simp) g (']' :: rest)
        (by simp [jsizeItems] at hfuel; omega) (by simp [delimOk])]
      rfl
    | cons v2 vs2 =>
      rw [show dumpItems (v :: v2 :: vs2) ++ ']' :: rest =
        dumpVal v ++ (',' :: ' ' :: (dumpItems (v2 :: vs2) ++ ']' :: rest)) from by
          show (dumpVal v ++ ',' :: ' ' :: dumpItems (v2 :: vs2)) ++ ']' :: rest = _
          simp]
      rw [IH v (by simp) g (',' :: ' ' :: (dumpItems (v2 :: vs2) ++ ']' :: rest))
        (by simp [jsizeItems] at hfuel; omega) (by simp [delimOk])]
      show parseItems g (skipWs (' ' :: (dumpItems (v2 :: vs2) ++ ']' :: rest)))
        (acc ++ [v]) = _
      rw [show skipWs (' ' :: (dumpItems (v2 :: vs2) ++ ']' :: rest)) =
        skipWs (dumpItems (v2 :: vs2) ++ ']' :: rest) from rfl]
      rw [skipWs_dumpItems v2 vs2 _]
      rw [ihl (fun w hw => IH w (by simp [hw])) g (acc ++ [v]) rest hwf2.2
        (by simp) (by simp [jsizeItems] at hfuel ⊢; omega) hrest]
      simp

theorem parseMembers_loop (entries : List (String × PyVal)) :
    (∀ p ∈ entries, ∀ fuel rest, jsize p.2 ≤ fuel → delimOk rest = true →
      parseVal fuel (dumpVal p.2 ++ rest) = some (p.2, rest)) →
    ∀ fuel acc rest, wfEntries entries = true → entries ≠ [] →
      keysNodup (acc ++ entries) = true →
      jsizeEntries entries ≤ fuel → delimOk rest = true →
      parseMembers fuel (dumpEntries entries ++ rbrace :: rest) acc =
        some (.pydict (acc ++ entries), rest) := by
  induction entries with
  | nil =>
    intro _ fuel acc rest _ hne _ _ _
    exact absurd rfl hne
  | cons p ps ihl =>
    obtain ⟨k, v⟩ := p
    intro IH fuel acc rest hwf _ hnd hfuel hrest
    have hwf2 : wfVal v = true ∧ wfEntries ps = true := by
      simpa [wfEntries, Bool.and_eq_true] using hwf
    obtain ⟨g, rfl⟩ : ∃ g, fuel = g + 1 :=
      ⟨fuel - 1, by simp [jsizeEntries] at hfuel; omega⟩
    have hkacc : dictContains acc k = false := keysNodup_append_cons acc k v ps hnd
    have hins : dictInsert acc k v = acc ++ [(k, v)] :=
      dictInsert_append acc k v hkacc
    cases ps with
    | nil =>
      rw [show dumpEntries [(k, v)] ++ rbrace :: rest =
        '"' :: (escapeStr k ++ '"' :: (':' :: ' ' :: (dumpVal v ++ rbrace :: rest)))
        from by
          show ('"' :: (escapeStr k ++ '"' :: ':' :: ' ' :: dumpVal v)) ++
            rbrace :: rest = _
          simp]
      rw [parseMembers_quote]
      rw [show escapeStr k = k.data.foldr (fun c a => escapeChar c ++ a) [] from rfl]
      rw [parseJStrAux_escape_list k.data _ []
        (':' :: ' ' :: (dumpVal v ++ rbrace :: rest)) (by
          have h1 := escape_foldr_length k.data
          have h2 : k.length = k.data.length := rfl
          simp [List.length_append]
          omega)]
      show (if (':' : Char) = ':' then _ else none) = _
      rw [if_pos rfl]
      show (match parseVal g (skipWs (' ' :: (dumpVal v ++ rbrace :: rest))) with
        | some (v2, rest4) =>
          match skipWs rest4 with
          | c2 :: rest5 =>
            if c2 = ',' then
              parseMembers g (skipWs rest5)
                (dictInsert acc (String.mk ([].reverse ++ k.data)) v2)
            else if c2 = rbrace then
              some (.pydict (dictInsert acc (String.mk ([].reverse ++ k.data)) v2),
                rest5)
            else none
          | [] => none
        | none => none) = _
      rw [show skipWs (' ' :: (dumpVal v ++ rbrace :: rest)) =
        skipWs (dumpVal v ++ rbrace :: rest) from rfl]
      rw [skipWs_dump v _]
      rw [IH (k, v) (by simp) g (rbrace :: rest)
        (by show jsize v ≤ g; simp [jsizeEntries] at hfuel; omega)
        (by simp [delimOk])]
      show some (PyVal.pydict (dictInsert acc (String.mk ([].reverse ++ k.data)) v),
        rest) = _
      rw [show String.mk ([].reverse ++ k.data) = k from rfl]
      rw [hins]
    | cons p2 ps2 =>
      rw [show dumpEntries ((k, v) :: p2 :: ps2) ++ rbrace :: rest =
        '"' :: (escapeStr k ++ '"' :: (':' :: ' ' :: (dumpVal v ++
          ',' :: ' ' :: (dumpEntries (p2 :: ps2) ++ rbrace :: rest)))) from by
          show (('"' :: (escapeStr k ++ '"' :: ':' :: ' ' :: dumpVal v)) ++
            ',' :: ' ' :: dumpEntries (p2 :: ps2)) ++ rbrace :: rest = _
          simp]
      rw [parseMembers_quote]
      rw [show escapeStr k = k.data.foldr (fun c a => escapeChar c ++ a) [] from rfl]
      rw [parseJStrAux_escape_list k.data _ []
        (':' :: ' ' :: (dumpVal v ++
          ',' :: ' ' :: (dumpEntries (p2 :: ps2) ++ rbrace :: rest))) (by
          have h1 := escape_foldr_length k.data
          have h2 : k.length = k.data.length := rfl
          simp [List.length_append]
          omega)]
      show (if (':' : Char) = ':' then _ else none) = _
      rw [if_pos rfl]
      show (match parseVal g (skipWs (' ' :: (dumpVal v ++
          ',' :: ' ' :: (dumpEntries (p2 :: ps2) ++ rbrace :: rest)))) with
        | some (v2, rest4) =>
          match skipWs rest4 with
          | c2 :: rest5 =>
            if c2 = ',' then
              parseMembers g (skipWs rest5)
                (dictInsert acc (String.mk ([].reverse ++ k.data)) v2)
            else if c2 = rbrace then
              some (.pydict (dictInsert acc (String.mk ([].reverse ++ k.data)) v2),
                rest5)
            else none
          | [] => none
        | none => none) = _
      rw [show skipWs (' ' :: (dumpVal v ++
          ',' :: ' ' :: (dumpEntries (p2 :: ps2) ++ rbrace :: rest))) =
        skipWs (dumpVal v ++
          ',' :: ' ' :: (dumpEntries (p2 :: ps2) ++ rbrace :: rest)) from rfl]
      rw [skipWs_dump v _]
      rw [IH (k, v) (by simp) g _
        (by show jsize v ≤ g; simp [jsizeEntries] at hfuel; omega)
        (by simp [delimOk])]
      show parseMembers g
        (skipWs (' ' :: (dumpEntries (p2 :: ps2) ++ rbrace :: rest)))
        (dictInsert acc (String.mk ([].reverse ++ k.data)) v) = _
      rw [show String.mk ([].reverse ++ k.data) = k from rfl]
      rw [show skipWs (' ' :: (dumpEntries (p2 :: ps2) ++ rbrace :: rest)) =
        skipWs (dumpEntries (p2 :: ps2) ++ rbrace :: rest) from rfl]
      rw [skipWs_dumpEntries p2 ps2 _]
      rw [hins]
      rw [ihl (fun q hq => IH q (by simp [hq])) g (acc ++ [(k, v)]) rest hwf2.2
        (by simp)
        (by rw [show (acc ++ [(k, v)]) ++ p2 :: ps2 = acc ++ (k, v) :: p2 :: ps2
          from by simp]; exact hnd)
        (by simp [jsizeEntries] at hfuel ⊢; omega) hrest]
      simp

/-! ### The full printer-parser round trip -/

theorem jsize_mem_items (items : List PyVal) (w : PyVal) (hw : w ∈ items) :
    jsize w < jsizeItems items := by
  induction items with
  | nil => simp at hw
  | cons v vs ih =>
    rcases List.mem_cons.mp hw with rfl | h
    · simp [jsizeItems]
      omega
    · have := ih h
      simp [jsizeItems]
      omega

theorem jsize_mem_entries (entries : List (String × PyVal)) (p : String × PyVal)
    (hp : p ∈ entries) : jsize p.2 < jsizeEntries entries := by
  induction entries with
  | nil => simp at hp
  | cons q qs ih =>
    obtain ⟨k0, v0⟩ := q
    rcases List.mem_cons.mp hp with rfl | h
    · simp [jsizeEntries]
      omega
    · have := ih h
      simp [jsizeEntries]
      omega

theorem wfItems_mem (items : List PyVal) (w : PyVal) (hw : w ∈ items)
    (h : wfItems items = true) : wfVal w = true := by
  induction items with
  | nil => simp at hw
  | cons v vs ih =>
    have h2 : wfVal v = true ∧ wfItems vs = true := by
      simpa [wfItems, Bool.and_eq_true] using h
    rcases List.mem_cons.mp hw with rfl | hmem
    · exact h2.1
    · exact ih hmem h2.2

theorem wfEntries_mem (entries : List (String × PyVal)) (p : String × PyVal)
    (hp : p ∈ entries) (h : wfEntries entries = true) : wfVal p.2 = true := by
  induction entries with
  | nil => simp at hp
  | cons q qs ih =>
    obtain ⟨k0, v0⟩ := q
    have h2 : wfVal v0 = true ∧ wfEntries qs = true := by
      simpa [wfEntries, Bool.and_eq_true] using h
    rcases List.mem_cons.mp hp with rfl | hmem
    · exact h2.1
    · exact ih hmem h2.2

mutual

theorem jsize_le_dump : ∀ v : PyVal, jsize v ≤ 2 * (dumpVal v).length
  | .pynone => by simp [jsize, dumpVal]
  | .pybool b => by cases b <;> simp [jsize, dumpVal]
  | .pyint n => by
    obtain ⟨c, tl, hc, _, _⟩ := dumpVal_cons (.pyint n)
    simp only [jsize, hc, List.length_cons]
    omega
  | .pystr s => by
    simp only [jsize, dumpVal, List.length_cons, List.length_append,
      List.length_nil]
    omega
  | .pylist items => by
    have h := jsizeItems_le_dump items
    simp only [jsize, dumpVal, List.length_cons, List.length_append,
      List.length_nil]
    omega
  | .pydict entries => by
    have h := jsizeEntries_le_dump entries
    simp only [jsize, dumpVal, List.length_cons, List.length_append,
      List.length_nil]
    omega

theorem jsizeItems_le_dump : ∀ items : List PyVal,
    jsizeItems items ≤ 2 * (dumpItems items).length + 1
  | [] => by simp [jsizeItems, dumpItems]
  | [v] => by
    have h := jsize_le_dump v
    simp only [jsizeItems, dumpItems, List.length_nil]
    omega
  | v :: v2 :: vs => by
    have h1 := jsize_le_dump v
    have h2 := jsizeItems_le_dump (v2 :: vs)
    simp only [jsizeItems, dumpItems, List.length_append, List.length_cons]
      at h2 ⊢
    omega

theorem jsizeEntries_le_dump : ∀ entries : List (String × PyVal),
    jsizeEntries entries ≤ 2 * (dumpEntries entries).length + 1
  | [] => by simp [jsizeEntries, dumpEntries]
  | [(k, v)] => by
    have h := jsize_le_dump v
    simp only [jsizeEntries, dumpEntries, List.length_cons, List.length_append]
    omega
  | (k, v) :: p2 :: ps => by
    have h1 := jsize_le_dump v
    have h2 := jsizeEntries_le_dump (p2 :: ps)
    simp only [jsizeEntries, dumpEntries, List.length_cons, List.length_append]
      at h2 ⊢
    omega

end

/-- The central round-trip theorem: parsing the printed form of any
well-formed value, followed by any legal delimiter, returns the value
and the delimiter, for any fuel of at least `jsize v`. -/
theorem parse_dumpVal (N : Nat) : ∀ v : PyVal, jsize v ≤ N → wfVal v = true →
    ∀ fuel rest, jsize v ≤ fuel → delimOk rest = true →
      parseVal fuel (dumpVal v ++ rest) = some (v, rest) := by
  induction N with
  | zero =>
    intro v hN
    have := jsize_pos v
    omega
  | succ N ih =>
    intro v hN hwf fuel rest hfuel hrest
    obtain ⟨f, rfl⟩ : ∃ f, fuel = f + 1 :=
      ⟨fuel - 1, by have := jsize_pos v; omega⟩
    cases v with
    | pynone => exact parseVal_null f rest
    | pybool b =>
      cases b
      · exact parseVal_false f rest
      · exact parseVal_true f rest
    | pyint n => exact parseVal_int n f rest (numEndOk_of_delimOk rest hrest)
    | pystr s => exact parseVal_str s f rest
    | pylist items =>
      show parseVal (f + 1) ('[' :: ((dumpItems items ++ [']']) ++ rest)) = _
      rw [show parseVal (f + 1) ('[' :: ((dumpItems items ++ [']']) ++ rest)) =
        parseArr f (skipWs ((dumpItems items ++ [']']) ++ rest)) from rfl]
      rw [show (dumpItems items ++ [']']) ++ rest = dumpItems items ++ ']' :: rest
        from by simp]
      cases items with
      | nil =>
        rw [show dumpItems [] ++ ']' :: rest = ']' :: rest from rfl]
        rw [skipWs_cons_not_ws ']' rest (by decide)]
        obtain ⟨g, rfl⟩ : ∃ g, f = g + 1 :=
          ⟨f - 1, by simp [jsize, jsizeItems] at hfuel; omega⟩
        rfl
      | cons v1 vs =>
        rw [skipWs_dumpItems v1 vs _]
        obtain ⟨g, rfl⟩ : ∃ g, f = g + 1 :=
          ⟨f - 1, by simp [jsize, jsizeItems] at hfuel; have := jsize_pos v1; omega⟩
        obtain ⟨c0, tl0, hc0, hws0, hbr0⟩ := dumpVal_cons v1
        have hhead : ∃ tl, dumpItems (v1 :: vs) ++ ']' :: rest = c0 :: tl := by
          cases vs with
          | nil =>
            exact ⟨tl0 ++ ']' :: rest, by
              rw [show dumpItems [v1] = dumpVal v1 from rfl, hc0]
              rfl⟩
          | cons b l =>
            exact ⟨(tl0 ++ ',' :: ' ' :: dumpItems (b :: l)) ++ ']' :: rest, by
              rw [show dumpItems (v1 :: b :: l) =
                dumpVal v1 ++ ',' :: ' ' :: dumpItems (b :: l) from rfl, hc0]
              simp⟩
        obtain ⟨tl, htl⟩ := hhead
        rw [htl]
        rw [parseArr.eq_def]
        simp only []
        rw [if_neg hbr0]
        rw [← htl]
        have hN2 : jsizeItems (v1 :: vs) ≤ N := by
          simp [jsize] at hN
          omega
        have hwf2 : wfItems (v1 :: vs) = true := by simpa [wfVal] using hwf
        rw [parseItems_loop (v1 :: vs)
          (fun w hw fuel2 rest2 hf2 hr2 =>
            ih w (by have := jsize_mem_items (v1 :: vs) w hw; omega)
              (wfItems_mem (v1 :: vs) w hw hwf2) fuel2 rest2 hf2 hr2)
          g [] rest hwf2 (by simp)
          (by simp [jsize] at hfuel; omega) hrest]
        simp
    | pydict entries =>
      show parseVal (f + 1) (lbrace :: ((dumpEntries entries ++ [rbrace]) ++ rest))
        = _
      rw [show parseVal (f + 1)
          (lbrace :: ((dumpEntries entries ++ [rbrace]) ++ rest)) =
        parseObj f (skipWs ((dumpEntries entries ++ [rbrace]) ++ rest)) from rfl]
      rw [show (dumpEntries entries ++ [rbrace]) ++ rest =
        dumpEntries entries ++ rbrace :: rest from by simp]
      have hwf2 : keysNodup entries = true ∧ wfEntries entries = true := by
        simpa [wfVal, Bool.and_eq_true] using hwf
      cases entries with
      | nil =>
        rw [show dumpEntries ([] : List (String × PyVal)) ++ rbrace :: rest =
          rbrace :: rest from rfl]
        rw [skipWs_cons_not_ws rbrace rest (by decide)]
        obtain ⟨g, rfl⟩ : ∃ g, f = g + 1 :=
          ⟨f - 1, by simp [jsize, jsizeEntries] at hfuel; omega⟩
        rfl
      | cons p ps =>
        rw [skipWs_dumpEntries p ps _]
        obtain ⟨g, rfl⟩ : ∃ g, f = g + 1 :=
          ⟨f - 1, by
            simp [jsize, jsizeEntries] at hfuel
            have := jsize_pos p.2
            omega⟩
        obtain ⟨tl, htl⟩ := dumpEntries_cons_quote p ps
        rw [show dumpEntries (p :: ps) ++ rbrace :: rest =
          '"' :: (tl ++ rbrace :: rest) from by rw [htl]; rfl]
        rw [show parseObj (g + 1) ('"' :: (tl ++ rbrace :: rest)) =
          parseMembers g ('"' :: (tl ++ rbrace :: rest)) [] from by
            rw [parseObj.eq_def]
            simp only []
            rw [if_neg (by decide)]]
        rw [show ('"' :: (tl ++ rbrace :: rest)) =
          dumpEntries (p :: ps) ++ rbrace :: rest from by rw [htl]; rfl]
        rw [parseMembers_loop (p :: ps)
          (fun q hq fuel2 rest2 hf2 hr2 =>
            ih q.2 (by
              have := jsize_mem_entries (p :: ps) q hq
              simp [jsize] at hN
              omega)
              (wfEntries_mem (p :: ps) q hq hwf2.2) fuel2 rest2 hf2 hr2)
          g [] rest hwf2.2 (by simp) (by simpa using hwf2.1)
          (by simp [jsize] at hfuel; omega) hrest]
        simp

/-- Parsing the default `json.dumps` serialization of a well-formed
value, with the trailing newline `publish` appends, recovers the value. -/
theorem json_loads_json_dumps_newline (v : PyVal) (hwf : wfVal v = true) :
    json_loads (json_dumps v ++ "\n") = .ok v := by
  unfold json_loads
  have hdata : (json_dumps v ++ "\n").data = dumpVal v ++ ['\n'] := rfl
  have hlen : (json_dumps v ++ "\n").length = (dumpVal v).length + 1 := by
    show (json_dumps v ++ "\n").data.length = _
    rw [hdata]
    simp
  rw [hdata]
  rw [show skipWs (dumpVal v ++ ['\n']) = dumpVal v ++ ['\n'] from skipWs_dump v _]
  rw [parse_dumpVal (jsize v) v le_rfl hwf _ ['\n']
    (by rw [hlen]; have := jsize_le_dump v; omega)
    (by simp [delimOk, jsonWsChar])]
  rfl

/-- C8: round trip — for every successful `publish` (identity fields
coerce, `timestamp` and `cluster_name` present, `response` parses as
JSON), where the values drawn from the input message and the parsed
response are genuine Python values (every dict nested in them has
pairwise-distinct keys, as every real Python dict does), the single
byte string handed to the producer decodes as UTF-8 and then parses as
JSON to an object whose `"Report"` field is exactly the JSON value
obtained by parsing the `response` string. -/
theorem claim_C8_report_roundtrip (st : Stage) (im : PyVal) (resp : String)
    (org acct : Int) (ts cn rep : PyVal)
    (hOrg : extractOrgId im = .ok org)
    (hAcct : extractAccountNumber im = .ok acct)
    (hTs : subscript im "timestamp" = .ok ts)
    (hCn : subscript im "cluster_name" = .ok cn)
    (hRep : json_loads resp = .ok rep)
    (hwfTs : wfVal ts = true) (hwfCn : wfVal cn = true)
    (hwfRid : wfVal (pyGet im "request_id") = true)
    (hwfRep : wfVal rep = true) :
    ∃ bytes wire env,
      publish st none im resp =
        { produceCalls := [(st.topic, bytes)], outcome := none } ∧
      utf8Decode bytes = some wire ∧
      json_loads wire = .ok (.pydict env) ∧
      dictLookup env "Report" = some rep := by
  refine ⟨utf8Encode (json_dumps (mkEnvelope st.outdata_schema_version org acct
      cn rep ts (pyGet im "request_id")) ++ "\n"),
    json_dumps (mkEnvelope st.outdata_schema_version org acct cn rep ts
      (pyGet im "request_id")) ++ "\n",
    [("OrgID", .pyint org), ("AccountNumber", .pyint acct),
      ("ClusterName", cn), ("Report", rep), ("LastChecked", ts),
      ("Version", .pyint st.outdata_schema_version),
      ("RequestId", pyGet im "request_id")],
    ?_, utf8Decode_utf8Encode _, ?_, ?_⟩
  · simp [publish, tryBlock, hOrg, hAcct, hTs, hCn, hRep]
  · have hwf : wfVal (mkEnvelope st.outdata_schema_version org acct cn rep ts
        (pyGet im "request_id")) = true := by
      simp [mkEnvelope, wfVal, keysNodup, dictContains, dictLookup, wfEntries,
        hwfTs, hwfCn, hwfRid, hwfRep]
    exact json_loads_json_dumps_newline _ hwf
  · simp [dictLookup]

/-- Witness for C8 at the spec's worked example: the example wire bytes
decode and parse back, and the `Report` field is the parsed example
response. -/
theorem claim_C8_witness :
    ∃ bytes wire env,
      publish exampleStage none exampleMsg exampleResp =
        { produceCalls := [("t", bytes)], outcome := none } ∧
      utf8Decode bytes = some wire ∧
      json_loads wire = .ok (.pydict env) ∧
      dictLookup env "Report" = some (.pydict [("a", .pyint 1)]) :=
  claim_C8_report_roundtrip exampleStage exampleMsg exampleResp 42 7
    (.pystr "2024-01-01T00:00:00Z") (.pystr "c1") (.pydict [("a", .pyint 1)])
    rfl rfl rfl rfl rfl rfl rfl rfl rfl

end CCXPub
